import Mathlib

/-!
Shallow embedding of the `naver_ad_rank_bot2` repository, together with
theorems checking the natural-language specification against it.

Python numbers (`float` impressions/ranks) are modelled as exact rationals
`ℚ`; Python `int` counters as `ℤ`; optional values (`None`) as `Option`;
Python dicts as insertion-ordered association lists over `String` keys.
-/

namespace NaverBot

/-! ## Association lists: the embedding of Python `dict`

`alistSet` updates an existing key in place and appends a fresh key at the
end, exactly as CPython dict assignment does; `alistGet` is `dict.get`.
-/

/-- Python `dict.get k`: the first binding of `k`, if any. -/
def alistGet {α : Type} : List (String × α) → String → Option α
  | [], _ => none
  | (k', v) :: t, k => if k' = k then some v else alistGet t k

/-- Python `dict[k] = v`: replace the binding in place, or append it at the end. -/
def alistSet {α : Type} : List (String × α) → String → α → List (String × α)
  | [], k, v => [(k, v)]
  | (k', v') :: t, k, v => if k' = k then (k, v) :: t else (k', v') :: alistSet t k v

theorem alistGet_set_self {α : Type} (l : List (String × α)) (k : String) (v : α) :
    alistGet (alistSet l k v) k = some v := by
  induction l with
  | nil => simp [alistGet, alistSet]
  | cons p t ih =>
      by_cases h : p.1 = k
      · simp [alistSet, alistGet, h]
      · simp [alistSet, alistGet, h, ih]

theorem alistGet_set_other {α : Type} (l : List (String × α)) (k k' : String) (v : α)
    (h : k ≠ k') : alistGet (alistSet l k v) k' = alistGet l k' := by
  induction l with
  | nil => simp [alistGet, alistSet, h]
  | cons p t ih =>
      by_cases hp : p.1 = k
      · simp [alistSet, alistGet, hp, h, Ne.symm h]
      · by_cases hp' : p.1 = k'
        · simp [alistSet, alistGet, hp, hp', Ne.symm h]
        · simp [alistSet, alistGet, hp, hp', ih]

theorem mem_alistSet {α : Type} (l : List (String × α)) (k : String) (v : α) :
    ∀ e ∈ alistSet l k v, e ∈ l ∨ e = (k, v) := by
  induction l with
  | nil => intro e he; simp [alistSet] at he; simp [he]
  | cons p t ih =>
      intro e he
      by_cases hp : p.1 = k
      · simp only [alistSet, if_pos hp] at he
        rcases List.mem_cons.mp he with h | h
        · right; exact h
        · left; exact List.mem_cons_of_mem _ h
      · simp only [alistSet, if_neg hp] at he
        rcases List.mem_cons.mp he with h | h
        · left; exact h ▸ List.mem_cons_self _ _
        · rcases ih e h with h' | h'
          · left; exact List.mem_cons_of_mem _ h'
          · right; exact h'

theorem alistGet_mem {α : Type} (l : List (String × α)) (k : String) (v : α)
    (h : alistGet l k = some v) : (k, v) ∈ l := by
  induction l with
  | nil => simp [alistGet] at h
  | cons p t ih =>
      obtain ⟨pk, pv⟩ := p
      by_cases hp : pk = k
      · simp only [alistGet, if_pos hp] at h
        cases h
        subst hp
        exact List.mem_cons_self _ _
      · simp only [alistGet, if_neg hp] at h
        exact List.mem_cons_of_mem _ (ih h)

/-! ## Python string primitives

`x or y` on optional strings: `None` and `""` are falsy, everything else is
truthy and short-circuits. `str.upper()` / `str.lower()` are modelled
character-by-character: the ASCII case map (identity on everything else,
e.g. on Hangul, which has no case — as in Python).
-/

/-- One character of Python `str.upper()`. -/
def charUpper (c : Char) : Char :=
  if 'a' ≤ c ∧ c ≤ 'z' then Char.ofNat (c.toNat - 32) else c

/-- One character of Python `str.lower()`. -/
def charLower (c : Char) : Char :=
  if 'A' ≤ c ∧ c ≤ 'Z' then Char.ofNat (c.toNat + 32) else c

/-- Python `s.upper()`. -/
def pyUpper (s : String) : String := ⟨s.data.map charUpper⟩

/-- Python `s.lower()`. -/
def pyLower (s : String) : String := ⟨s.data.map charLower⟩

/-- Python truthiness of a plain string (`""` is falsy). -/
def pyStrNonEmpty (s : String) : Bool := !s.data.isEmpty

/-- Python truthiness of an optional string (`None` and `""` are falsy). -/
def strTruthy : Option String → Bool
  | none => false
  | some s => pyStrNonEmpty s

/-- Python `a or b` over optional strings. -/
def pyOr (a b : Option String) : Option String := if strTruthy a then a else b

/-- Python `a or d` where `d` is a (truthy or not) plain-string default. -/
def pyOrStr (a : Option String) (d : String) : String :=
  match pyOr a (some d) with
  | some s => s
  | none => d

/-! ## config.py -/

/-- config.py: the thresholds read from the environment. `RANK_THRESHOLD` is
a Python float, `MIN_IMP` and `STREAK_THRESHOLD` Python ints. -/
structure Config where
  RANK_THRESHOLD : ℚ
  MIN_IMP : ℤ
  STREAK_THRESHOLD : ℤ
deriving Repr, DecidableEq

/-- config.py defaults: `RANK_THRESHOLD=1.5`, `MIN_IMP=30`, `STREAK_THRESHOLD=2`. -/
def defaultConfig : Config := ⟨3 / 2, 30, 2⟩

/-! ## main.py: `is_top_like` -/

/-- main.py `is_top_like(imp, avg_rnk)`:
`None` rank is never top-like, impressions below `MIN_IMP` are never
top-like, otherwise top-like iff `avg_rnk <= RANK_THRESHOLD`. -/
def is_top_like (cfg : Config) (imp : ℚ) (avg_rnk : Option ℚ) : Bool :=
  match avg_rnk with
  | none => false
  | some r => if imp < (cfg.MIN_IMP : ℚ) then false else decide (r ≤ cfg.RANK_THRESHOLD)

/-! ## stats_checker.py: `summarize_by_keyword` -/

/-- One `/stats` response row, with the fields `summarize_by_keyword` reads.
Numeric fields are rationals (Python floats); all are optional because the
code reads them with `row.get`. -/
structure StatsRow where
  id : Option String := none
  nccKeywordId : Option String := none
  keywordId : Option String := none
  pcMblTp : Option String := none
  pcMblTpNm : Option String := none
  pcMblTpType : Option String := none
  device : Option String := none
  type : Option String := none
  impCnt : Option ℚ := none
  clkCnt : Option ℚ := none
  avgRnk : Option ℚ := none
deriving Repr, DecidableEq

/-- The id chain `rid = row.get("id") or row.get("nccKeywordId") or row.get("keywordId")`,
followed by the `if not rid: continue` truthiness filter. -/
def rowId (row : StatsRow) : Option String :=
  let rid := pyOr row.id (pyOr row.nccKeywordId row.keywordId)
  if strTruthy rid then rid else none

/-- The device-bucket key:
`dev = (row.get("pcMblTp") or row.get("pcMblTpNm") or row.get("pcMblTpType") or "").upper()`
with the fallback
`dev = (row.get("device") or row.get("type") or "UNKNOWN").upper()` when that
is empty. The uppercased label is used verbatim. -/
def rowDev (row : StatsRow) : String :=
  let dev := pyUpper (pyOrStr (pyOr row.pcMblTp (pyOr row.pcMblTpNm row.pcMblTpType)) "")
  if pyStrNonEmpty dev then dev else pyUpper (pyOrStr (pyOr row.device row.type) "UNKNOWN")

/-- The impressions `float(row.get("impCnt") or 0)`. -/
def impVal (row : StatsRow) : ℚ := row.impCnt.getD 0

/-- The clicks `float(row.get("clkCnt") or 0)`. -/
def clkVal (row : StatsRow) : ℚ := row.clkCnt.getD 0

/-- The `(keyword, device)` bucket a row lands in, or `none` when the row is
skipped (`if not rid: continue` / `if not kw: continue`). -/
def rowKey (id_to_keyword : List (String × String)) (row : StatsRow) :
    Option (String × String) :=
  match rowId row with
  | none => none
  | some rid =>
      match alistGet id_to_keyword rid with
      | none => none
      | some kw => if pyStrNonEmpty kw then some (kw, rowDev row) else none

/-- The running per-bucket accumulator
`{"imp": …, "clk": …, "avgRnk": …, "_w": …}` (`avgRnk` is the running
impression-weighted sum until `finalize`). -/
structure Acc where
  imp : ℚ
  clk : ℚ
  avgRnk : ℚ
  w : ℚ
deriving Repr, DecidableEq

/-- The `setdefault` initial accumulator. -/
def Acc.init : Acc := ⟨0, 0, 0, 0⟩

/-- Fold one row into a bucket accumulator: always add `imp`/`clk`; add to the
weighted rank sum only `if avg is not None and imp > 0`. -/
def Acc.addRow (m : Acc) (row : StatsRow) : Acc :=
  let imp := impVal row
  let m := { m with imp := m.imp + imp, clk := m.clk + clkVal row }
  match row.avgRnk with
  | some a => if imp > 0 then { m with avgRnk := m.avgRnk + a * imp, w := m.w + imp } else m
  | none => m

/-- The nested accumulator dict `acc : {kw: {dev: Acc}}`. -/
def AccMap : Type := List (String × List (String × Acc))

/-- One iteration of the `for row in raw_rows` loop of `summarize_by_keyword`. -/
def applyRow (id_to_keyword : List (String × String)) (acc : AccMap) (row : StatsRow) :
    AccMap :=
  match rowKey id_to_keyword row with
  | none => acc
  | some (kw, dev) =>
      let devs := (alistGet acc kw).getD []
      let m := (alistGet devs dev).getD Acc.init
      alistSet acc kw (alistSet devs dev (m.addRow row))

/-- The finalized per-bucket summary `{"imp": …, "clk": …, "avgRnk": …}`;
`avgRnk` is `None` when no row contributed weight. -/
structure DevSum where
  imp : ℚ
  clk : ℚ
  avgRnk : Option ℚ
deriving Repr, DecidableEq

/-- The `finalize` step of `summarize_by_keyword`. -/
def finalizeAcc (m : Acc) : DevSum :=
  { imp := m.imp, clk := m.clk, avgRnk := if m.w > 0 then some (m.avgRnk / m.w) else none }

/-- stats_checker.py `summarize_by_keyword(raw_rows, id_to_keyword)`. -/
def summarize_by_keyword (raw_rows : List StatsRow)
    (id_to_keyword : List (String × String)) : List (String × List (String × DevSum)) :=
  let acc := raw_rows.foldl (applyRow id_to_keyword) []
  acc.map (fun p => (p.1, p.2.map (fun q => (q.1, finalizeAcc q.2))))

/-- Two-level lookup in the summary: `summary.get(kw, {}).get(dev)`. -/
def summaryGet {α : Type} (s : List (String × List (String × α))) (kw dev : String) :
    Option α :=
  match alistGet s kw with
  | none => none
  | some devs => alistGet devs dev

/-! ## main.py: the streak detector (state machine over the persisted state) -/

/-- One per-device state entry `{"streak": …, "last_avgRnk": …, "last_imp": …}`.
The streak is a Python int (`ℤ`); the loaded JSON could in principle hold any
integer, so non-negativity is an invariant, not a type fact. -/
structure DevState where
  streak : ℤ
  last_avgRnk : Option ℚ
  last_imp : ℚ
deriving Repr, DecidableEq

/-- The `state.setdefault` default: `{"streak": 0, "last_avgRnk": None, "last_imp": 0}`. -/
def initDevState : DevState := ⟨0, none, 0⟩

/-- One keyword's state entry, holding the `"PC"` and `"MOBILE"` slots. -/
structure KwState where
  PC : DevState
  MOBILE : DevState
deriving Repr, DecidableEq

/-- The `state.setdefault(kw, {...})` default entry. -/
def initKwState : KwState := ⟨initDevState, initDevState⟩

/-- An alert tuple `(kw, dev_key, streak, avg, imp)` collected in `alerts`. -/
structure Alert where
  keyword : String
  device : String
  streak : ℤ
  avgRnk : Option ℚ
  imp : ℚ
deriving Repr, DecidableEq

/-- main.py lines 163–179, the per-device body of the streak loop: read
`imp`/`avg`, increment or reset the streak by `is_top_like`, always update the
`last_*` fields, and on reaching `STREAK_THRESHOLD` record an alert
`(streak, avg, imp)` and reset the streak to 0. -/
def update_device (cfg : Config) (st : DevState) (dev_data : DevSum) :
    DevState × Option (ℤ × Option ℚ × ℚ) :=
  let imp := dev_data.imp
  let avg := dev_data.avgRnk
  let top_like := is_top_like cfg imp avg
  let s1 : ℤ := if top_like then st.streak + 1 else 0
  if s1 ≥ cfg.STREAK_THRESHOLD then (⟨0, avg, imp⟩, some (s1, avg, imp))
  else (⟨s1, avg, imp⟩, none)

/-- main.py line 159:
`dev_data = devs.get(dev_key) or devs.get(dev_key.lower()) or devs.get(dev_key.upper())`. -/
def pick_dev (devs : List (String × DevSum)) (dev_key : String) : Option DevSum :=
  match alistGet devs dev_key with
  | some d => some d
  | none =>
      match alistGet devs (pyLower dev_key) with
      | some d => some d
      | none => alistGet devs (pyUpper dev_key)

/-- The `for dev_key in ["PC", "MOBILE"]` body for one device key: a missing
device slot (`if not dev_data: continue`) leaves the slot untouched. -/
def update_one_dev (cfg : Config) (kw dev_key : String) (st : DevState)
    (devs : List (String × DevSum)) : DevState × List Alert :=
  match pick_dev devs dev_key with
  | none => (st, [])
  | some d =>
      match update_device cfg st d with
      | (st', none) => (st', [])
      | (st', some (sk, avg, imp)) => (st', [⟨kw, dev_key, sk, avg, imp⟩])

/-- One iteration of the `for kw, devs in summary.items()` loop. -/
def update_keyword (cfg : Config) (kw : String) (st : KwState)
    (devs : List (String × DevSum)) : KwState × List Alert :=
  let pc := update_one_dev cfg kw "PC" st.PC devs
  let mb := update_one_dev cfg kw "MOBILE" st.MOBILE devs
  (⟨pc.1, mb.1⟩, pc.2 ++ mb.2)

/-- main.py lines 146–182: fold the whole summary over the loaded state,
returning the state that `save_state` persists together with the collected
alerts. `setdefault` + in-place mutation is `alistSet` at the keyword. -/
def run_update (cfg : Config) (state : List (String × KwState))
    (summary : List (String × List (String × DevSum))) :
    List (String × KwState) × List Alert :=
  summary.foldl
    (fun acc p =>
      let cur := (alistGet acc.1 p.1).getD initKwState
      let r := update_keyword cfg p.1 cur p.2
      (alistSet acc.1 p.1 r.1, acc.2 ++ r.2))
    (state, [])

/-- The state component of `run_update` alone (the alerts do not feed back
into the state evolution). -/
def run_update_state (cfg : Config) (state : List (String × KwState))
    (summary : List (String × List (String × DevSum))) : List (String × KwState) :=
  summary.foldl
    (fun st p => alistSet st p.1 (update_keyword cfg p.1 ((alistGet st p.1).getD initKwState) p.2).1)
    state

theorem run_update_fst (cfg : Config) (summary : List (String × List (String × DevSum))) :
    ∀ (state : List (String × KwState)) (al : List Alert),
      (summary.foldl
        (fun acc p =>
          let cur := (alistGet acc.1 p.1).getD initKwState
          let r := update_keyword cfg p.1 cur p.2
          (alistSet acc.1 p.1 r.1, acc.2 ++ r.2))
        (state, al)).1 = run_update_state cfg state summary := by
  induction summary with
  | nil => intro state al; simp [run_update_state]
  | cons p t ih =>
      intro state al
      simp only [List.foldl_cons, run_update_state] at *
      exact ih _ _

/-! ## Theorems about `is_top_like` and the streak transition -/

/-- C5: `is_top_like` is false on an undefined rank and below the minimum
impressions, otherwise true iff the rank is at most the threshold; it never
flips true→false as impressions grow, and raising the rank past the
threshold always yields false (so a true result always flips to false). -/
theorem is_top_like_spec (cfg : Config) (imp imp' r r' : ℚ) :
    is_top_like cfg imp none = false
    ∧ (imp < (cfg.MIN_IMP : ℚ) → is_top_like cfg imp (some r) = false)
    ∧ (¬imp < (cfg.MIN_IMP : ℚ) →
        (is_top_like cfg imp (some r) = true ↔ r ≤ cfg.RANK_THRESHOLD))
    ∧ (is_top_like cfg imp (some r) = true → imp ≤ imp' →
        is_top_like cfg imp' (some r) = true)
    ∧ (cfg.RANK_THRESHOLD < r' → is_top_like cfg imp (some r') = false)
    ∧ (is_top_like cfg imp (some r) = true → cfg.RANK_THRESHOLD < r' →
        is_top_like cfg imp (some r') = false) := by
  refine ⟨rfl, ?_, ?_, ?_, ?_, ?_⟩
  · intro h; simp [is_top_like, h]
  · intro h; simp [is_top_like, h]
  · intro h h'
    simp only [is_top_like] at h ⊢
    rcases lt_or_le imp (cfg.MIN_IMP : ℚ) with hlt | hge
    · simp [hlt] at h
    · have hge' : ¬imp' < (cfg.MIN_IMP : ℚ) := not_lt.mpr (le_trans hge h')
      simp [not_lt.mpr hge] at h
      simp [hge', h]
  · intro h; simp [is_top_like, not_le.mpr h]
  · intro _ h; simp [is_top_like, not_le.mpr h]

/-- C5 witness: the monotonicity clauses at `cfg = defaultConfig`,
`imp = 30 ≤ imp' = 50`, `r = 1 ≤ 1.5 < r' = 2`. -/
theorem is_top_like_spec_witness :
    is_top_like defaultConfig 50 (some 1) = true
    ∧ is_top_like defaultConfig 30 (some 2) = false := by
  constructor
  · exact (is_top_like_spec defaultConfig 30 50 1 2).2.2.2.1
      (by norm_num [is_top_like, defaultConfig]) (by norm_num)
  · exact (is_top_like_spec defaultConfig 30 30 1 2).2.2.2.2.1
      (by norm_num [defaultConfig])

/-- C1: the per-observation streak transition — increment on top-like, reset
on non-top-like, always refresh the last-observed fields, alert exactly when
the incremented counter reaches the threshold (recording the pre-reset
streak, rank and impressions, then resetting to 0); and the spec's concrete
scenario at threshold 2, min impressions 30, rank threshold 1.5:
ranks 1.2/1.1/5.0 with impressions 50/40/40 give streak 1 (no alert), streak
2 (alert, reset to 0), streak 0. -/
theorem streak_transition (cfg : Config) (st : DevState) (d : DevSum) :
    ((update_device cfg st d).1.last_avgRnk = d.avgRnk
      ∧ (update_device cfg st d).1.last_imp = d.imp)
    ∧ (∀ s1 : ℤ, s1 = (if is_top_like cfg d.imp d.avgRnk then st.streak + 1 else 0) →
        (cfg.STREAK_THRESHOLD ≤ s1 →
          (update_device cfg st d).2 = some (s1, d.avgRnk, d.imp)
          ∧ (update_device cfg st d).1.streak = 0)
        ∧ (s1 < cfg.STREAK_THRESHOLD →
          (update_device cfg st d).2 = none ∧ (update_device cfg st d).1.streak = s1))
    ∧ ((run_update defaultConfig [] [("X", [("PC", ⟨50, 0, some (6/5)⟩)])]).1
          = [("X", ⟨⟨1, some (6/5), 50⟩, initDevState⟩)]
        ∧ (run_update defaultConfig [] [("X", [("PC", ⟨50, 0, some (6/5)⟩)])]).2 = []
        ∧ (run_update defaultConfig [("X", ⟨⟨1, some (6/5), 50⟩, initDevState⟩)]
            [("X", [("PC", ⟨40, 0, some (11/10)⟩)])]).1
          = [("X", ⟨⟨0, some (11/10), 40⟩, initDevState⟩)]
        ∧ (run_update defaultConfig [("X", ⟨⟨1, some (6/5), 50⟩, initDevState⟩)]
            [("X", [("PC", ⟨40, 0, some (11/10)⟩)])]).2
          = [⟨"X", "PC", 2, some (11/10), 40⟩]
        ∧ (run_update defaultConfig [("X", ⟨⟨0, some (11/10), 40⟩, initDevState⟩)]
            [("X", [("PC", ⟨40, 0, some 5⟩)])]).1
          = [("X", ⟨⟨0, some 5, 40⟩, initDevState⟩)]
        ∧ (run_update defaultConfig [("X", ⟨⟨0, some (11/10), 40⟩, initDevState⟩)]
            [("X", [("PC", ⟨40, 0, some 5⟩)])]).2 = []) := by
  refine ⟨?_, ?_, ?_⟩
  · unfold update_device
    by_cases h : (if is_top_like cfg d.imp d.avgRnk then st.streak + 1 else 0)
        ≥ cfg.STREAK_THRESHOLD <;> simp [h]
  · intro s1 hs1
    subst hs1
    unfold update_device
    constructor
    · intro hge
      simp [ge_iff_le.mpr hge]
    · intro hlt
      simp [not_le.mpr hlt]
  · refine ⟨?_, ?_, ?_, ?_, ?_, ?_⟩ <;>
      norm_num +decide [run_update, update_keyword, update_one_dev, update_device,
        pick_dev, is_top_like, alistGet, alistSet, pyLower, pyUpper, charLower, charUpper,
        defaultConfig, initDevState, initKwState]

/-- C1 witness: the alert clause of the transition at a concrete top-like
observation that reaches the threshold. -/
theorem streak_transition_witness :
    (update_device defaultConfig ⟨1, none, 0⟩ ⟨40, 0, some (11/10)⟩).2
      = some (2, some (11/10), 40)
    ∧ (update_device defaultConfig ⟨1, none, 0⟩ ⟨40, 0, some (11/10)⟩).1.streak = 0 := by
  have h := ((streak_transition defaultConfig ⟨1, none, 0⟩ ⟨40, 0, some (11/10)⟩).2.1
    2 (by norm_num [is_top_like, defaultConfig])).1 (by norm_num [defaultConfig])
  exact h

/-! ## Device-label bucketing in `summarize_by_keyword` -/

/-- C2 counterexample: a row whose device label is `"모바일"` (impressions 77,
rank 1.35) is NOT aggregated into the `MOBILE` bucket — no substring or
natural-language normalization happens; it lands in a bucket literally named
`"모바일"`. -/
theorem device_label_counterexample :
    summaryGet (summarize_by_keyword
        [{ id := some "nkw-1", pcMblTp := some "모바일", impCnt := some 77,
           avgRnk := some (27/20) }] [("nkw-1", "X")]) "X" "MOBILE" = none
    ∧ summaryGet (summarize_by_keyword
        [{ id := some "nkw-1", pcMblTp := some "모바일", impCnt := some 77,
           avgRnk := some (27/20) }] [("nkw-1", "X")]) "X" "모바일"
      = some ⟨77, 0, some (27/20)⟩ := by
  constructor <;>
    norm_num +decide [summarize_by_keyword, applyRow, rowKey, rowId, rowDev, pyOr, pyOrStr,
      strTruthy, pyStrNonEmpty, pyUpper, charUpper, impVal, clkVal, Acc.addRow, Acc.init,
      finalizeAcc, alistGet, alistSet, summaryGet]

/-- C2 amended: the device label is only uppercased (so labels equal to
`PC`/`MOBILE` up to ASCII case are normalized) and then used verbatim as the
bucket key; a label matching neither is not dropped — the row is aggregated
under its own uppercased label, a bucket the downstream `PC`/`MOBILE` reader
(`pick_dev`) never selects. In particular `"모바일"` stays `"모바일"`. -/
theorem device_label_bucketing (row : StatsRow) (m : List (String × String))
    (kw dev : String) (h : rowKey m row = some (kw, dev)) :
    dev = rowDev row
    ∧ summaryGet (summarize_by_keyword [row] m) kw dev
        = some (finalizeAcc (Acc.init.addRow row))
    ∧ (pyUpper "pc" = "PC" ∧ pyUpper "Mobile" = "MOBILE" ∧ pyUpper "모바일" = "모바일")
    ∧ pick_dev [("모바일", ⟨77, 0, some (27/20)⟩)] "MOBILE" = none := by
  refine ⟨?_, ?_, ?_, ?_⟩
  · unfold rowKey at h
    rcases hrid : rowId row with _ | rid <;> simp [hrid] at h
    rcases hkw : alistGet m rid with _ | kw' <;> simp [hkw] at h
    by_cases hne : pyStrNonEmpty kw' = true
    · simp only [hne, if_true, Option.some.injEq, Prod.mk.injEq] at h
      exact h.2.2.symm
    · simp [hne] at h
  · simp only [summarize_by_keyword, List.foldl_cons, List.foldl_nil, applyRow, h]
    simp [summaryGet, alistGet, alistSet]
  · constructor
    · decide
    · constructor <;> decide
  · decide

/-- The scenario row of C2: device label `"모바일"`, impressions 77, rank 1.35. -/
def mobileRow : StatsRow :=
  { id := some "nkw-1", pcMblTp := some "모바일", impCnt := some 77, avgRnk := some (27/20) }

/-- C2 amended witness: the `"모바일"` row of the scenario satisfies the
hypothesis, and its bucket is `"모바일"`. -/
theorem device_label_bucketing_witness : "모바일" = rowDev mobileRow := by
  exact (device_label_bucketing mobileRow [("nkw-1", "X")] "X" "모바일" (by decide)).1

/-! ## Characterizing the aggregation arithmetic of `summarize_by_keyword` -/

theorem alistGet_map {α β : Type} (f : α → β) :
    ∀ (l : List (String × α)) (k : String),
      alistGet (l.map (fun p => (p.1, f p.2))) k = (alistGet l k).map f
  | [], _ => rfl
  | p :: t, k => by
      by_cases h : p.1 = k <;> simp [alistGet, h, alistGet_map f t k]

theorem summaryGet_map_finalize (acc : AccMap) (kw dev : String) :
    summaryGet (acc.map (fun p => (p.1, p.2.map (fun q => (q.1, finalizeAcc q.2))))) kw dev
      = (summaryGet acc kw dev).map finalizeAcc := by
  unfold summaryGet
  rw [alistGet_map (fun devs => devs.map fun q => (q.1, finalizeAcc q.2)) acc kw]
  cases alistGet acc kw with
  | none => rfl
  | some devs => simp [alistGet_map]

theorem summaryGet_applyRow (m : List (String × String)) (acc : AccMap) (row : StatsRow)
    (kw dev : String) :
    summaryGet (applyRow m acc row) kw dev
      = if rowKey m row = some (kw, dev)
        then some (((summaryGet acc kw dev).getD Acc.init).addRow row)
        else summaryGet acc kw dev := by
  rcases hk : rowKey m row with _ | ⟨k, d⟩
  · simp [applyRow, hk]
  · by_cases hkk : k = kw
    · subst hkk
      by_cases hdd : d = dev
      · subst hdd
        simp only [applyRow, hk, if_pos rfl]
        rcases ha : alistGet acc k with _ | devs
        · simp [summaryGet, ha, alistGet_set_self, alistGet]
        · simp [summaryGet, ha, alistGet_set_self]
      · have hne : ¬(some ((k : String), d) = some (k, dev)) := by simp [hdd]
        simp only [applyRow, hk, if_neg hne]
        rcases ha : alistGet acc k with _ | devs
        · simp [summaryGet, ha, alistGet_set_self, alistGet_set_other _ _ _ _ hdd, alistGet, hdd]
        · simp [summaryGet, ha, alistGet_set_self, alistGet_set_other _ _ _ _ hdd, hdd]
    · have hne : ¬(some ((k : String), d) = some (kw, dev)) := by simp [hkk]
      simp only [applyRow, hk, if_neg hne]
      simp [summaryGet, alistGet_set_other _ _ _ _ hkk]

theorem summaryGet_foldRows (m : List (String × String)) (rows : List StatsRow) :
    ∀ (acc : AccMap) (kw dev : String),
      summaryGet (rows.foldl (applyRow m) acc) kw dev
        = (rows.filter (fun row => decide (rowKey m row = some (kw, dev)))).foldl
            (fun oa row => some ((oa.getD Acc.init).addRow row)) (summaryGet acc kw dev) := by
  induction rows with
  | nil => intro acc kw dev; simp
  | cons r rs ih =>
      intro acc kw dev
      by_cases h : rowKey m r = some (kw, dev)
      · have hstep : summaryGet (applyRow m acc r) kw dev
            = some (((summaryGet acc kw dev).getD Acc.init).addRow r) := by
          rw [summaryGet_applyRow]; simp [h]
        simp [List.foldl_cons, List.filter_cons, h, ih, hstep]
      · have hstep : summaryGet (applyRow m acc r) kw dev = summaryGet acc kw dev := by
          rw [summaryGet_applyRow]; simp [h]
        simp [List.foldl_cons, List.filter_cons, h, ih, hstep]

theorem optFold_some (rows : List StatsRow) :
    ∀ a : Acc,
      rows.foldl (fun oa row => some ((oa.getD Acc.init).addRow row)) (some a)
        = some (rows.foldl Acc.addRow a) := by
  induction rows with
  | nil => intro a; rfl
  | cons r rs ih => intro a; simp [List.foldl_cons, ih]

theorem optFold_none (rows : List StatsRow) :
    rows.foldl (fun oa row => some ((oa.getD Acc.init).addRow row)) none
      = (match rows with
         | [] => none
         | r :: rs => some (rs.foldl Acc.addRow (Acc.init.addRow r))) := by
  cases rows with
  | nil => rfl
  | cons r rs => simp [List.foldl_cons, optFold_some]

/-- The guard `avg is not None and imp > 0`: the row feeds the weighted rank sum. -/
def contributes (row : StatsRow) : Bool := row.avgRnk.isSome && decide (0 < impVal row)

theorem addRow_imp (a : Acc) (r : StatsRow) : (a.addRow r).imp = a.imp + impVal r := by
  unfold Acc.addRow
  rcases r.avgRnk with _ | v
  · rfl
  · by_cases h : impVal r > 0 <;> simp [h]

theorem addRow_clk (a : Acc) (r : StatsRow) : (a.addRow r).clk = a.clk + clkVal r := by
  unfold Acc.addRow
  rcases r.avgRnk with _ | v
  · rfl
  · by_cases h : impVal r > 0 <;> simp [h]

theorem addRow_w (a : Acc) (r : StatsRow) :
    (a.addRow r).w = a.w + (if contributes r then impVal r else 0) := by
  unfold Acc.addRow contributes
  rcases hv : r.avgRnk with _ | v
  · simp [hv]
  · by_cases h : impVal r > 0 <;> simp [hv, h]

theorem addRow_rnk (a : Acc) (r : StatsRow) :
    (a.addRow r).avgRnk
      = a.avgRnk + (if contributes r then r.avgRnk.getD 0 * impVal r else 0) := by
  unfold Acc.addRow contributes
  rcases hv : r.avgRnk with _ | v
  · simp [hv]
  · by_cases h : impVal r > 0 <;> simp [hv, h, mul_comm]

theorem foldl_addRow_imp (rows : List StatsRow) :
    ∀ a : Acc, (rows.foldl Acc.addRow a).imp = a.imp + (rows.map impVal).sum := by
  induction rows with
  | nil => intro a; simp
  | cons r rs ih => intro a; simp [List.foldl_cons, ih, addRow_imp]; ring

theorem foldl_addRow_clk (rows : List StatsRow) :
    ∀ a : Acc, (rows.foldl Acc.addRow a).clk = a.clk + (rows.map clkVal).sum := by
  induction rows with
  | nil => intro a; simp
  | cons r rs ih => intro a; simp [List.foldl_cons, ih, addRow_clk]; ring

theorem foldl_addRow_w (rows : List StatsRow) :
    ∀ a : Acc,
      (rows.foldl Acc.addRow a).w = a.w + ((rows.filter contributes).map impVal).sum := by
  induction rows with
  | nil => intro a; simp
  | cons r rs ih =>
      intro a
      by_cases h : contributes r
      · simp [List.foldl_cons, ih, addRow_w, List.filter_cons, h]; ring
      · simp [List.foldl_cons, ih, addRow_w, List.filter_cons, h]

theorem foldl_addRow_rnk (rows : List StatsRow) :
    ∀ a : Acc,
      (rows.foldl Acc.addRow a).avgRnk
        = a.avgRnk
          + ((rows.filter contributes).map (fun r => r.avgRnk.getD 0 * impVal r)).sum := by
  induction rows with
  | nil => intro a; simp
  | cons r rs ih =>
      intro a
      by_cases h : contributes r
      · simp [List.foldl_cons, ih, addRow_rnk, List.filter_cons, h]; ring
      · simp [List.foldl_cons, ih, addRow_rnk, List.filter_cons, h]

/-- The content of `summarize_by_keyword` at one `(keyword, device)` bucket:
the finalized fold of exactly the rows that land in that bucket. -/
theorem summarize_lookup (rows : List StatsRow) (m : List (String × String))
    (kw dev : String) :
    summaryGet (summarize_by_keyword rows m) kw dev
      = (match rows.filter (fun row => decide (rowKey m row = some (kw, dev))) with
         | [] => none
         | r :: rs => some (finalizeAcc (rs.foldl Acc.addRow (Acc.init.addRow r)))) := by
  unfold summarize_by_keyword
  rw [summaryGet_map_finalize, summaryGet_foldRows]
  have h0 : summaryGet ([] : AccMap) kw dev = none := rfl
  rw [h0, optFold_none]
  cases rows.filter (fun row => decide (rowKey m row = some (kw, dev))) with
  | nil => rfl
  | cons r rs => rfl

/-- The rows of a batch that land in the `(kw, dev)` bucket. -/
def bucketRows (rows : List StatsRow) (m : List (String × String)) (kw dev : String) :
    List StatsRow :=
  rows.filter (fun row => decide (rowKey m row = some (kw, dev)))

/-- C4: for every keyword+device group present in the summary, impressions
and clicks are the sums over all rows of that bucket, and the average rank
is the impression-weighted mean over exactly the rows with a present rank
and positive impressions — `None`, not zero, when no row contributes
weight. -/
theorem summarize_aggregation (rows : List StatsRow) (m : List (String × String))
    (kw dev : String) (s : DevSum)
    (h : summaryGet (summarize_by_keyword rows m) kw dev = some s) :
    s.imp = ((bucketRows rows m kw dev).map impVal).sum
    ∧ s.clk = ((bucketRows rows m kw dev).map clkVal).sum
    ∧ s.avgRnk
      = (if 0 < (((bucketRows rows m kw dev).filter contributes).map impVal).sum
         then some ((((bucketRows rows m kw dev).filter contributes).map
              (fun r => r.avgRnk.getD 0 * impVal r)).sum
            / (((bucketRows rows m kw dev).filter contributes).map impVal).sum)
         else none) := by
  rw [summarize_lookup] at h
  unfold bucketRows
  rcases hm : rows.filter (fun row => decide (rowKey m row = some (kw, dev)))
    with _ | ⟨r, rs⟩ <;> rw [hm] at h
  · exact absurd h (by simp)
  · simp only [Option.some.injEq] at h
    subst h
    have himp : (rs.foldl Acc.addRow (Acc.init.addRow r)).imp
        = impVal r + (rs.map impVal).sum := by
      rw [foldl_addRow_imp, addRow_imp]; simp [Acc.init]
    have hclk : (rs.foldl Acc.addRow (Acc.init.addRow r)).clk
        = clkVal r + (rs.map clkVal).sum := by
      rw [foldl_addRow_clk, addRow_clk]; simp [Acc.init]
    have hw : (rs.foldl Acc.addRow (Acc.init.addRow r)).w
        = (((r :: rs).filter contributes).map impVal).sum := by
      rw [foldl_addRow_w, addRow_w]
      by_cases hc : contributes r <;> simp [Acc.init, List.filter_cons, hc]
    have hrnk : (rs.foldl Acc.addRow (Acc.init.addRow r)).avgRnk
        = (((r :: rs).filter contributes).map (fun x => x.avgRnk.getD 0 * impVal x)).sum := by
      rw [foldl_addRow_rnk, addRow_rnk]
      by_cases hc : contributes r <;> simp [Acc.init, List.filter_cons, hc]
    refine ⟨?_, ?_, ?_⟩
    · simp [finalizeAcc, himp]
    · simp [finalizeAcc, hclk]
    · simp only [finalizeAcc, hw, hrnk, gt_iff_lt]

/-- C4 witness: two rows in the same `PC` bucket, impressions 10 and 30,
ranks 1 and 2 — summed impressions 40, clicks 3, weighted mean 7/4. -/
theorem summarize_aggregation_witness :
    summaryGet (summarize_by_keyword
        [{ id := some "nkw-1", pcMblTp := some "pc", impCnt := some 10, clkCnt := some 1,
           avgRnk := some 1 },
         { id := some "nkw-1", pcMblTp := some "PC", impCnt := some 30, clkCnt := some 2,
           avgRnk := some 2 }] [("nkw-1", "K")]) "K" "PC"
      = some ⟨40, 3, some (7/4)⟩
    ∧ (⟨40, 3, some (7/4)⟩ : DevSum).imp
      = ((bucketRows
          [{ id := some "nkw-1", pcMblTp := some "pc", impCnt := some 10, clkCnt := some 1,
             avgRnk := some 1 },
           { id := some "nkw-1", pcMblTp := some "PC", impCnt := some 30, clkCnt := some 2,
             avgRnk := some 2 }] [("nkw-1", "K")] "K" "PC").map impVal).sum := by
  constructor
  · norm_num +decide [summarize_by_keyword, applyRow, rowKey, rowId, rowDev, pyOr, pyOrStr,
      strTruthy, pyStrNonEmpty, pyUpper, charUpper, impVal, clkVal, Acc.addRow, Acc.init,
      finalizeAcc, alistGet, alistSet, summaryGet]
  · exact (summarize_aggregation _ _ "K" "PC" ⟨40, 3, some (7/4)⟩
      (by norm_num +decide [summarize_by_keyword, applyRow, rowKey, rowId, rowDev, pyOr,
        pyOrStr, strTruthy, pyStrNonEmpty, pyUpper, charUpper, impVal, clkVal, Acc.addRow,
        Acc.init, finalizeAcc, alistGet, alistSet, summaryGet])).1

/-- C8: when every contributing row of a bucket carries the identical rank
`R`, the summarized average rank is exactly `R`, however the impressions are
split. -/
theorem weighted_mean_constant (rows : List StatsRow) (m : List (String × String))
    (kw dev : String) (s : DevSum) (R : ℚ)
    (h : summaryGet (summarize_by_keyword rows m) kw dev = some s)
    (hall : ∀ row ∈ (bucketRows rows m kw dev).filter contributes, row.avgRnk = some R)
    (hne : (bucketRows rows m kw dev).filter contributes ≠ []) :
    s.avgRnk = some R := by
  rw [summarize_lookup] at h
  unfold bucketRows at hall hne
  rcases hm : rows.filter (fun row => decide (rowKey m row = some (kw, dev)))
    with _ | ⟨r, rs⟩ <;> rw [hm] at h hall hne
  · exact absurd h (by simp)
  · simp only [Option.some.injEq] at h
    subst h
    have hw : (rs.foldl Acc.addRow (Acc.init.addRow r)).w
        = (((r :: rs).filter contributes).map impVal).sum := by
      rw [foldl_addRow_w, addRow_w]
      by_cases hc : contributes r <;> simp [Acc.init, List.filter_cons, hc]
    have hrnk : (rs.foldl Acc.addRow (Acc.init.addRow r)).avgRnk
        = (((r :: rs).filter contributes).map (fun x => x.avgRnk.getD 0 * impVal x)).sum := by
      rw [foldl_addRow_rnk, addRow_rnk]
      by_cases hc : contributes r <;> simp [Acc.init, List.filter_cons, hc]
    have hmapR : ((r :: rs).filter contributes).map (fun x => x.avgRnk.getD 0 * impVal x)
        = ((r :: rs).filter contributes).map (fun x => R * impVal x) := by
      apply List.map_congr_left
      intro x hx
      rw [hall x hx]
      rfl
    have hWpos : 0 < (((r :: rs).filter contributes).map impVal).sum := by
      apply List.sum_pos
      · intro x hx
        rcases List.mem_map.mp hx with ⟨row, hrow, rfl⟩
        have hc := List.of_mem_filter hrow
        unfold contributes at hc
        exact of_decide_eq_true (Bool.and_elim_right hc)
      · intro hnil
        rcases List.map_eq_nil_iff.mp hnil with h'
        exact hne h'
    have : (((r :: rs).filter contributes).map (fun x => R * impVal x)).sum
        = R * (((r :: rs).filter contributes).map impVal).sum :=
      List.sum_map_mul_left _ _ _
    simp only [finalizeAcc, hw, hrnk, hmapR, this, gt_iff_lt, if_pos hWpos]
    rw [mul_div_assoc, div_self (ne_of_gt hWpos), mul_one]

/-- Two same-bucket rows with identical rank 2, impressions 10 and 25. -/
def constRankRows : List StatsRow :=
  [{ id := some "nkw-1", pcMblTp := some "M", impCnt := some 10, avgRnk := some 2 },
   { id := some "nkw-1", pcMblTp := some "M", impCnt := some 25, avgRnk := some 2 }]

/-- C8 witness: two rows with identical rank 2 and impressions 10 and 25 —
the weighted mean is 2. -/
theorem weighted_mean_constant_witness :
    summaryGet (summarize_by_keyword constRankRows [("nkw-1", "K")]) "K" "M"
      = some ⟨35, 0, some 2⟩
    ∧ (⟨35, 0, some 2⟩ : DevSum).avgRnk = some 2 := by
  constructor
  · norm_num +decide [constRankRows, summarize_by_keyword, applyRow, rowKey, rowId, rowDev,
      pyOr, pyOrStr, strTruthy, pyStrNonEmpty, pyUpper, charUpper, impVal, clkVal, Acc.addRow,
      Acc.init, finalizeAcc, alistGet, alistSet, summaryGet]
  · exact weighted_mean_constant constRankRows [("nkw-1", "K")] "K" "M" ⟨35, 0, some 2⟩ 2
      (by norm_num +decide [constRankRows, summarize_by_keyword, applyRow, rowKey, rowId,
        rowDev, pyOr, pyOrStr, strTruthy, pyStrNonEmpty, pyUpper, charUpper, impVal, clkVal,
        Acc.addRow, Acc.init, finalizeAcc, alistGet, alistSet, summaryGet])
      (by norm_num +decide [constRankRows, bucketRows, contributes, rowKey, rowId, rowDev,
        pyOr, pyOrStr, strTruthy, pyStrNonEmpty, pyUpper, charUpper, impVal, List.filter,
        List.mem_cons])
      (by norm_num +decide [constRankRows, bucketRows, contributes, rowKey, rowId, rowDev,
        pyOr, pyOrStr, strTruthy, pyStrNonEmpty, pyUpper, charUpper, impVal, List.filter])

/-! ## The streak-counter invariant over a whole run -/

/-- Both streak counters of an entry lie in `[0, T]`. -/
def KwStateOK (T : ℤ) (st : KwState) : Prop :=
  (0 ≤ st.PC.streak ∧ st.PC.streak ≤ T) ∧ (0 ≤ st.MOBILE.streak ∧ st.MOBILE.streak ≤ T)

theorem update_device_streak (cfg : Config) (st : DevState) (d : DevSum)
    (h0 : 0 ≤ st.streak) (hT : 1 ≤ cfg.STREAK_THRESHOLD) :
    0 ≤ (update_device cfg st d).1.streak
    ∧ (update_device cfg st d).1.streak ≤ cfg.STREAK_THRESHOLD := by
  unfold update_device
  by_cases htop : is_top_like cfg d.imp d.avgRnk
  · simp only [htop, if_true]
    by_cases halert : st.streak + 1 ≥ cfg.STREAK_THRESHOLD
    · rw [if_pos halert]
      exact ⟨le_refl 0, by dsimp only; omega⟩
    · rw [if_neg halert]
      exact ⟨by dsimp only; omega, by dsimp only; omega⟩
  · simp only [htop, Bool.false_eq_true, if_false]
    by_cases halert : (0 : ℤ) ≥ cfg.STREAK_THRESHOLD
    · rw [if_pos halert]
      exact ⟨le_refl 0, by dsimp only; omega⟩
    · rw [if_neg halert]
      exact ⟨le_refl 0, by dsimp only; omega⟩

theorem update_one_dev_streak (cfg : Config) (kw dk : String) (st : DevState)
    (devs : List (String × DevSum))
    (h0 : 0 ≤ st.streak ∧ st.streak ≤ cfg.STREAK_THRESHOLD)
    (hT : 1 ≤ cfg.STREAK_THRESHOLD) :
    0 ≤ (update_one_dev cfg kw dk st devs).1.streak
    ∧ (update_one_dev cfg kw dk st devs).1.streak ≤ cfg.STREAK_THRESHOLD := by
  unfold update_one_dev
  rcases hp : pick_dev devs dk with _ | d
  · simp only [hp]
    exact h0
  · simp only [hp]
    rcases hud : update_device cfg st d with ⟨st', oa⟩
    have hb := update_device_streak cfg st d h0.1 hT
    rw [hud] at hb
    rcases oa with _ | ⟨sk, avg, imp⟩
    · exact hb
    · exact hb

theorem update_keyword_ok (cfg : Config) (kw : String) (st : KwState)
    (devs : List (String × DevSum)) (h : KwStateOK cfg.STREAK_THRESHOLD st)
    (hT : 1 ≤ cfg.STREAK_THRESHOLD) :
    KwStateOK cfg.STREAK_THRESHOLD (update_keyword cfg kw st devs).1 := by
  unfold update_keyword KwStateOK
  exact ⟨update_one_dev_streak cfg kw "PC" st.PC devs h.1 hT,
         update_one_dev_streak cfg kw "MOBILE" st.MOBILE devs h.2 hT⟩

theorem run_update_state_cons (cfg : Config) (state : List (String × KwState))
    (p : String × List (String × DevSum)) (t : List (String × List (String × DevSum))) :
    run_update_state cfg state (p :: t)
      = run_update_state cfg
          (alistSet state p.1
            (update_keyword cfg p.1 ((alistGet state p.1).getD initKwState) p.2).1) t := rfl

theorem run_update_state_ok (cfg : Config)
    (summary : List (String × List (String × DevSum))) (hT : 1 ≤ cfg.STREAK_THRESHOLD) :
    ∀ state : List (String × KwState), (∀ e ∈ state, KwStateOK cfg.STREAK_THRESHOLD e.2) →
      ∀ e ∈ run_update_state cfg state summary, KwStateOK cfg.STREAK_THRESHOLD e.2 := by
  induction summary with
  | nil => intro state h e he; exact h e he
  | cons p t ih =>
      intro state h e he
      rw [run_update_state_cons] at he
      refine ih _ ?_ e he
      intro e' he'
      rcases mem_alistSet _ _ _ e' he' with h' | h'
      · exact h e' h'
      · subst h'
        refine update_keyword_ok cfg p.1 _ p.2 ?_ hT
        rcases hg : alistGet state p.1 with _ | st0
        · simp only [hg, Option.getD_none]
          exact ⟨⟨le_refl 0, le_trans zero_le_one hT⟩, ⟨le_refl 0, le_trans zero_le_one hT⟩⟩
        · simp only [hg, Option.getD_some]
          exact h (p.1, st0) (alistGet_mem state p.1 st0 hg)

theorem run_update_eq_state (cfg : Config) (state : List (String × KwState))
    (summary : List (String × List (String × DevSum))) :
    (run_update cfg state summary).1 = run_update_state cfg state summary :=
  run_update_fst cfg summary state []

/-- C6 counterexample: with the default configuration (threshold 2), a loaded
state whose counters are non-negative (streak 5) but whose keyword is not
observed in the run is persisted unchanged — so a persisted counter exceeds
the threshold even though all loaded counters were non-negative and the
threshold is ≥ 1. -/
theorem streak_bound_counterexample :
    (run_update defaultConfig [("Y", ⟨⟨5, none, 0⟩, initDevState⟩)] []).1
      = [("Y", ⟨⟨5, none, 0⟩, initDevState⟩)]
    ∧ (0 : ℤ) ≤ 5
    ∧ 1 ≤ defaultConfig.STREAK_THRESHOLD
    ∧ ¬((5 : ℤ) ≤ defaultConfig.STREAK_THRESHOLD) := by
  refine ⟨rfl, by norm_num, by norm_num [defaultConfig], by norm_num [defaultConfig]⟩

/-- C6 amended: assuming every loaded counter lies in `[0, threshold]` (not
just that it is non-negative — an unobserved entry is persisted verbatim,
so loaded counters above the threshold survive a run) and the threshold is
≥ 1, every counter persisted at the end of the run lies in `[0, threshold]`;
and a failed top-like predicate always resets the counter to 0, so repeated
non-qualifying observations keep it at zero. -/
theorem streak_invariant (cfg : Config) (state : List (String × KwState))
    (summary : List (String × List (String × DevSum)))
    (h0 : ∀ e ∈ state, KwStateOK cfg.STREAK_THRESHOLD e.2)
    (hT : 1 ≤ cfg.STREAK_THRESHOLD) :
    (∀ e ∈ (run_update cfg state summary).1, KwStateOK cfg.STREAK_THRESHOLD e.2)
    ∧ (∀ (st : DevState) (d : DevSum), is_top_like cfg d.imp d.avgRnk = false →
        (update_device cfg st d).1.streak = 0) := by
  constructor
  · rw [run_update_eq_state]
    exact run_update_state_ok cfg summary hT state h0
  · intro st d h
    unfold update_device
    simp only [h, Bool.false_eq_true, if_false]
    by_cases halert : (0 : ℤ) ≥ cfg.STREAK_THRESHOLD
    · rw [if_pos halert]
    · rw [if_neg halert]

/-- C6 amended witness: a one-keyword state within bounds stays within
bounds across a run that observes one top-like pair. -/
theorem streak_invariant_witness :
    KwStateOK defaultConfig.STREAK_THRESHOLD
      (⟨⟨1, none, 0⟩, initDevState⟩ : KwState) := by
  refine (streak_invariant defaultConfig [("Y", ⟨⟨1, none, 0⟩, initDevState⟩)] [] ?_
    (by norm_num [defaultConfig])).1 ("Y", ⟨⟨1, none, 0⟩, initDevState⟩) ?_
  · intro e he
    rcases List.mem_singleton.mp he with rfl
    exact ⟨⟨by norm_num, by norm_num [defaultConfig]⟩,
           ⟨by norm_num [initDevState], by norm_num [initDevState, defaultConfig]⟩⟩
  · exact List.mem_singleton.mpr rfl

/-! ## The frame property of a run -/

theorem run_update_state_get_out (cfg : Config)
    (summary : List (String × List (String × DevSum))) :
    ∀ (state : List (String × KwState)) (kw : String), (∀ p ∈ summary, p.1 ≠ kw) →
      alistGet (run_update_state cfg state summary) kw = alistGet state kw := by
  induction summary with
  | nil => intro state kw _; rfl
  | cons p t ih =>
      intro state kw h
      rw [run_update_state_cons, ih _ kw (fun q hq => h q (List.mem_cons_of_mem _ hq))]
      exact alistGet_set_other _ _ _ _ (h p (List.mem_cons_self _ _))

theorem run_update_state_get_in (cfg : Config)
    (summary : List (String × List (String × DevSum))) :
    ∀ (state : List (String × KwState)) (kw : String) (devs : List (String × DevSum))
      (st0 : KwState),
      (summary.map Prod.fst).Nodup → (kw, devs) ∈ summary → alistGet state kw = some st0 →
      alistGet (run_update_state cfg state summary) kw
        = some (update_keyword cfg kw st0 devs).1 := by
  induction summary with
  | nil => intro _ _ _ _ _ h _; simp at h
  | cons p t ih =>
      intro state kw devs st0 hnd hmem hget
      rcases List.mem_cons.mp hmem with heq | hmem'
      · have hp1 : p.1 = kw := by rw [← heq]
        have hout : ∀ q ∈ t, q.1 ≠ kw := by
          intro q hq hqe
          have hnotin := (List.nodup_cons.mp hnd).1
          exact hnotin (hp1 ▸ hqe ▸ List.mem_map_of_mem Prod.fst hq)
        rw [run_update_state_cons, run_update_state_get_out cfg t _ kw hout, hp1,
          alistGet_set_self, hget]
        have hp2 : p.2 = devs := by rw [← heq]
        rw [hp2]
        simp
      · have hkwt : kw ∈ t.map Prod.fst := by
          have : (kw, devs) ∈ t := hmem'
          exact List.mem_map_of_mem Prod.fst this
        have hne : p.1 ≠ kw := by
          intro hpe
          exact (List.nodup_cons.mp hnd).1 (hpe ▸ hkwt)
        rw [run_update_state_cons]
        exact ih _ kw devs st0 (List.nodup_cons.mp hnd).2 hmem'
          ((alistGet_set_other _ _ _ _ hne).trans hget)

theorem update_keyword_pc_frame (cfg : Config) (kw : String) (st : KwState)
    (devs : List (String × DevSum)) (h : pick_dev devs "PC" = none) :
    (update_keyword cfg kw st devs).1.PC = st.PC := by
  simp [update_keyword, update_one_dev, h]

theorem update_keyword_mobile_frame (cfg : Config) (kw : String) (st : KwState)
    (devs : List (String × DevSum)) (h : pick_dev devs "MOBILE" = none) :
    (update_keyword cfg kw st devs).1.MOBILE = st.MOBILE := by
  simp [update_keyword, update_one_dev, h]

/-- C10: a run only mutates the `(keyword, device)` entries it observed — a
keyword absent from the summary keeps its whole state entry verbatim, and a
summarized keyword keeps any device slot for which `pick_dev` finds no
aggregate data. -/
theorem run_frame (cfg : Config) (state : List (String × KwState))
    (summary : List (String × List (String × DevSum))) :
    (∀ kw : String, (∀ p ∈ summary, p.1 ≠ kw) →
        alistGet (run_update cfg state summary).1 kw = alistGet state kw)
    ∧ ((summary.map Prod.fst).Nodup →
        ∀ (kw : String) (devs : List (String × DevSum)) (st0 : KwState),
          (kw, devs) ∈ summary → alistGet state kw = some st0 →
          alistGet (run_update cfg state summary).1 kw
              = some (update_keyword cfg kw st0 devs).1
          ∧ (pick_dev devs "PC" = none → (update_keyword cfg kw st0 devs).1.PC = st0.PC)
          ∧ (pick_dev devs "MOBILE" = none →
              (update_keyword cfg kw st0 devs).1.MOBILE = st0.MOBILE)) := by
  constructor
  · intro kw h
    rw [run_update_eq_state]
    exact run_update_state_get_out cfg summary state kw h
  · intro hnd kw devs st0 hmem hget
    refine ⟨?_, update_keyword_pc_frame cfg kw st0 devs,
      update_keyword_mobile_frame cfg kw st0 devs⟩
    rw [run_update_eq_state]
    exact run_update_state_get_in cfg summary state kw devs st0 hnd hmem hget

/-- C10 witness: a run observing only `"B"` (whose only bucket is an
unrecognized device label) leaves `"A"`'s entry and `"B"`'s `PC` slot
untouched. -/
theorem run_frame_witness :
    alistGet (run_update defaultConfig
        [("A", ⟨⟨1, none, 0⟩, initDevState⟩), ("B", ⟨⟨2, none, 0⟩, initDevState⟩)]
        [("B", [("UNKNOWN", ⟨5, 0, some 1⟩)])]).1 "A"
      = some ⟨⟨1, none, 0⟩, initDevState⟩
    ∧ (update_keyword defaultConfig "B" ⟨⟨2, none, 0⟩, initDevState⟩
        [("UNKNOWN", ⟨5, 0, some 1⟩)]).1.PC = (⟨⟨2, none, 0⟩, initDevState⟩ : KwState).PC := by
  constructor
  · refine ((run_frame defaultConfig
      [("A", ⟨⟨1, none, 0⟩, initDevState⟩), ("B", ⟨⟨2, none, 0⟩, initDevState⟩)]
      [("B", [("UNKNOWN", ⟨5, 0, some 1⟩)])]).1 "A" ?_).trans (by simp [alistGet])
    intro p hp
    rcases List.mem_singleton.mp hp with rfl
    simp
  · refine (((run_frame defaultConfig
      [("A", ⟨⟨1, none, 0⟩, initDevState⟩), ("B", ⟨⟨2, none, 0⟩, initDevState⟩)]
      [("B", [("UNKNOWN", ⟨5, 0, some 1⟩)])]).2 (by simp) "B"
      [("UNKNOWN", ⟨5, 0, some 1⟩)] ⟨⟨2, none, 0⟩, initDevState⟩
      (List.mem_singleton.mpr rfl) (by simp [alistGet])).2.1 ?_)
    decide

/-! ## naver_client.py: the `request_json` retry loop -/

/-- One attempt's outcome: a parsed HTTP response (status code and body), or
a transport-level exception. -/
inductive HttpOutcome where
  | response (status : ℕ) (body : String)
  | exn (msg : String)
deriving Repr, DecidableEq

/-- The `for attempt in range(1, HTTP_RETRY + 1)` loop of `request_json`,
counting down the remaining attempts; `respond i` is the outcome of the
`i`-th (1-based) attempt. Faithful to the source: the 429/≥500 branch stores
a transient error in `last_err` and continues; the `raise RuntimeError` for
any other status ≥ 400 happens inside the `try`, so the surrounding
`except Exception` catches it, stores it in `last_err` and continues too;
only a status < 400 returns. After the loop, `raise last_err`. The second
component counts the attempts performed. -/
def request_go (respond : ℕ → HttpOutcome) (total : ℕ) :
    ℕ → Option String → (Except String String) × ℕ
  | 0, last_err => (.error (last_err.getD "Unknown error"), total)
  | remaining + 1, last_err =>
      let attempt := total - remaining
      match respond attempt with
      | .response status body =>
          if status = 429 ∨ 500 ≤ status then
            request_go respond total remaining
              (some ("HTTP " ++ toString status ++ ": " ++ body))
          else if 400 ≤ status then
            request_go respond total remaining
              (some ("HTTP " ++ toString status ++ ": " ++ body))
          else (.ok body, attempt)
      | .exn m => request_go respond total remaining (some m)

/-- naver_client.py `request_json`, over an oracle giving each attempt's
outcome. -/
def request_json (HTTP_RETRY : ℕ) (respond : ℕ → HttpOutcome) :
    (Except String String) × ℕ :=
  request_go respond HTTP_RETRY HTTP_RETRY none

/-- C3 (code bug): with the default `HTTP_RETRY = 3`, a request that is
answered `HTTP 400` every time performs all three attempts and only then
raises (the raised error does carry the body) — the `raise RuntimeError` for
a non-429 4xx sits inside the `try`, so the loop's own `except Exception`
catches it and retries, contradicting the immediately-fatal behaviour that
both the spec and the code's comments describe. -/
theorem request_json_4xx_retried :
    request_json 3 (fun _ => .response 400 "bad request")
      = (.error "HTTP 400: bad request", 3)
    ∧ (request_json 3 (fun _ => .response 400 "bad request")).2 ≠ 1 := by
  constructor
  · rfl
  · decide

/-! ## stats_checker.py: the 11001 breakdown fallback -/

/-- Does the pattern start the list? (helper for Python's `in`). -/
def hasPrefixL : List Char → List Char → Bool
  | [], _ => true
  | _ :: _, [] => false
  | p :: ps, c :: cs => p = c && hasPrefixL ps cs

/-- Does the pattern occur anywhere in the list? -/
def hasSubstr (pat : List Char) : List Char → Bool
  | [] => hasPrefixL pat []
  | c :: cs => hasPrefixL pat (c :: cs) || hasSubstr pat cs

/-- Python `pat in s` on strings. -/
def strContains (s pat : String) : Bool := hasSubstr pat.data s.data

/-- One `/stats` request as `fetch_stats_by_keyword_ids` builds it: the
comma-joined ids, the field list, the time range, and the optional
`breakdown` dimension. -/
structure StatsRequest where
  ids : String
  fields : List String
  timeRange : String
  breakdown : Option String
deriving Repr, DecidableEq

/-- The field set `fields_primary = ["impCnt", "clkCnt", "avgRnk"]`. -/
def fields_primary : List String := ["impCnt", "clkCnt", "avgRnk"]

/-- The field set `fields_fallback = ["impCnt", "avgRnk"]`. -/
def fields_fallback : List String := ["impCnt", "avgRnk"]

/-- The per-batch body of `fetch_stats_by_keyword_ids`: try the rich field
set with `breakdown="pcMblTp"`; on an error whose text does not carry
`11001`, re-raise it unchanged (`if "11001" not in str(e): raise`);
otherwise retry the same batch once with the reduced field set and no
breakdown, unprotected. The second component is the trace of requests
performed. -/
def fetch_batch (respond : StatsRequest → Except String String)
    (ids_str time_range : String) : (Except String String) × List StatsRequest :=
  let req1 : StatsRequest := ⟨ids_str, fields_primary, time_range, some "pcMblTp"⟩
  match respond req1 with
  | .ok data => (.ok data, [req1])
  | .error e =>
      if strContains e "11001" = false then (.error e, [req1])
      else
        let req2 : StatsRequest := ⟨ids_str, fields_fallback, time_range, none⟩
        (respond req2, [req1, req2])

/-- C7: when the first (breakdown) request of a batch fails with an error
carrying code 11001, the batch is retried exactly once — with the reduced
field set and no breakdown dimension — and nothing else; an error not
carrying 11001 propagates unchanged after the single primary request. -/
theorem fetch_batch_fallback (respond : StatsRequest → Except String String)
    (ids_str time_range e : String)
    (h : respond ⟨ids_str, fields_primary, time_range, some "pcMblTp"⟩ = .error e) :
    (strContains e "11001" = true →
      fetch_batch respond ids_str time_range
        = (respond ⟨ids_str, fields_fallback, time_range, none⟩,
           [⟨ids_str, fields_primary, time_range, some "pcMblTp"⟩,
            ⟨ids_str, fields_fallback, time_range, none⟩]))
    ∧ (strContains e "11001" = false →
      fetch_batch respond ids_str time_range
        = (.error e, [⟨ids_str, fields_primary, time_range, some "pcMblTp"⟩])) := by
  constructor <;> intro hc <;> simp [fetch_batch, h, hc]

/-- C7 witness: an oracle that rejects any breakdown request with an 11001
error and accepts the rest — the batch transparently succeeds on the
fallback request, having sent exactly the two requests. -/
theorem fetch_batch_fallback_witness :
    fetch_batch
      (fun r => if r.breakdown.isSome
        then .error "HTTP 400: code 11001 not supported"
        else .ok "rows") "nkw-1,nkw-2" "2026-10-12"
      = (.ok "rows",
         [⟨"nkw-1,nkw-2", fields_primary, "2026-10-12", some "pcMblTp"⟩,
          ⟨"nkw-1,nkw-2", fields_fallback, "2026-10-12", none⟩]) := by
  exact ((fetch_batch_fallback
    (fun r => if r.breakdown.isSome
      then .error "HTTP 400: code 11001 not supported"
      else .ok "rows") "nkw-1,nkw-2" "2026-10-12" "HTTP 400: code 11001 not supported"
    rfl).1 (by decide)).trans rfl

/-! ## utils.py: `write_json` / `read_json` and their round trip

The state and cache files are JSON documents. The value universe is modelled
by `Json` (numbers as exact integers); `dumps` mirrors
`json.dump(data, f, ensure_ascii=False, indent=2)` — two-space indentation,
`", "`-free newline item separators, `": "` key separator, short escapes and
`\u00XX` for control characters, everything else verbatim — and `loads`
mirrors the strict `json.load` reader on that fragment (whitespace-tolerant,
escape-decoding, trailing garbage rejected).
-/

/-- A JSON document: the structures Python's `json` round-trips, with
numbers restricted to exact integers. -/
inductive Json where
  | null
  | bool (b : Bool)
  | int (n : ℤ)
  | str (s : String)
  | arr (xs : List Json)
  | obj (kvs : List (String × Json))
deriving Repr


/-- The decimal digit character for `n < 10`. -/
def digitChar : ℕ → Char
  | 0 => '0' | 1 => '1' | 2 => '2' | 3 => '3' | 4 => '4'
  | 5 => '5' | 6 => '6' | 7 => '7' | 8 => '8' | _ => '9'

/-- The decimal digits of `n`, least significant first. -/
def natDigitsRev (n : ℕ) : List Char :=
  if h : n < 10 then [digitChar n]
  else digitChar (n % 10) :: natDigitsRev (n / 10)
termination_by n
decreasing_by exact Nat.div_lt_self (by omega) (by omega)

/-- The decimal digits of `n`, most significant first (no leading zeros). -/
def natChars (n : ℕ) : List Char := (natDigitsRev n).reverse

/-- Python `str(i)` for an int: optional minus sign, then the digits. -/
def intChars (i : ℤ) : List Char :=
  if i < 0 then '-' :: natChars i.natAbs else natChars i.natAbs

/-- The lower-case hexadecimal digit character for `n < 16` (Python emits
lower case in `\u00XX` escapes). -/
def hexChar (n : ℕ) : Char := if n < 10 then digitChar n else
  match n with
  | 10 => 'a' | 11 => 'b' | 12 => 'c' | 13 => 'd' | 14 => 'e' | _ => 'f'

/-- One character, escaped as Python's `json` encoder does with
`ensure_ascii=False`: the two-character escapes of `ESCAPE_DCT`, `\u00XX`
for the remaining control characters, everything else (ASCII or not)
verbatim. -/
def escChar (c : Char) : List Char :=
  if c = '"' then ['\\', '"']
  else if c = '\\' then ['\\', '\\']
  else if c = '\n' then ['\\', 'n']
  else if c = '\r' then ['\\', 'r']
  else if c = '\t' then ['\\', 't']
  else if c = Char.ofNat 8 then ['\\', 'b']
  else if c = Char.ofNat 12 then ['\\', 'f']
  else if c.toNat < 32 then
    ['\\', 'u', '0', '0', hexChar (c.toNat / 16), hexChar (c.toNat % 16)]
  else [c]

/-- A rendered JSON string: quote, escaped characters, quote. -/
def strChars (s : String) : List Char :=
  '"' :: (s.data.flatMap escChar ++ ['"'])

/-- With `indent=2`, the spaces of one indentation step at nesting `level`. -/
def indentChars (level : ℕ) : List Char := List.replicate (2 * level) ' '

/-- The rendering of `None`. -/
def nullChars : List Char := ['n', 'u', 'l', 'l']

/-- The rendering of `True`. -/
def trueChars : List Char := ['t', 'r', 'u', 'e']

/-- The rendering of `False`. -/
def falseChars : List Char := ['f', 'a', 'l', 's', 'e']

mutual
/-- Python `json.dump(v, …, ensure_ascii=False, indent=2)` at nesting `level`. -/
def dumpVal (level : ℕ) : Json → List Char
  | .null => nullChars
  | .bool b => if b then trueChars else falseChars
  | .int n => intChars n
  | .str s => strChars s
  | .arr [] => ['[', ']']
  | .arr (x :: xs) =>
      '[' :: '\n' :: (indentChars (level + 1) ++ dumpVal (level + 1) x
        ++ dumpArrTail (level + 1) xs ++ '\n' :: (indentChars level ++ [']']))
  | .obj [] => ['{', '}']
  | .obj (kv :: kvs) =>
      '{' :: '\n' :: (indentChars (level + 1) ++ strChars kv.1 ++ ':' :: ' '
        :: dumpVal (level + 1) kv.2
        ++ dumpObjTail (level + 1) kvs ++ '\n' :: (indentChars level ++ ['}']))
/-- The remaining array items, each preceded by `",\n" + indent`. -/
def dumpArrTail (level : ℕ) : List Json → List Char
  | [] => []
  | x :: xs => ',' :: '\n' :: (indentChars level ++ dumpVal level x ++ dumpArrTail level xs)
/-- The remaining object members, each preceded by `",\n" + indent`. -/
def dumpObjTail (level : ℕ) : List (String × Json) → List Char
  | [] => []
  | kv :: kvs => ',' :: '\n' :: (indentChars level ++ strChars kv.1 ++ ':' :: ' '
      :: dumpVal level kv.2 ++ dumpObjTail level kvs)
end

/-- Python `json.dump(data, f, ensure_ascii=False, indent=2)` as a string. -/
def dumps (j : Json) : String := ⟨dumpVal 0 j⟩

/-- JSON whitespace (the characters Python's scanner skips). -/
def isWsChar (c : Char) : Bool := c = ' ' || c = '\t' || c = '\n' || c = '\r'

/-- Skip leading whitespace. -/
def dropWs : List Char → List Char
  | [] => []
  | c :: cs => if isWsChar c then dropWs cs else c :: cs

def isDigitChar (c : Char) : Bool := '0' ≤ c && c ≤ '9'

/-- Split off the leading run of decimal digits. -/
def readDigits : List Char → List Char × List Char
  | [] => ([], [])
  | c :: cs =>
      if isDigitChar c then
        let p := readDigits cs
        (c :: p.1, p.2)
      else ([], c :: cs)

/-- The value of a digit run, most significant first. -/
def digitsVal (ds : List Char) : ℕ :=
  ds.foldl (fun a c => a * 10 + (c.toNat - 48)) 0

/-- Read an integer literal: optional minus sign, then at least one digit. -/
def readInt : List Char → Option (ℤ × List Char)
  | [] => none
  | c :: cs =>
      if c = '-' then
        let p := readDigits cs
        if p.1.isEmpty then none else some (-(digitsVal p.1 : ℤ), p.2)
      else
        let p := readDigits (c :: cs)
        if p.1.isEmpty then none else some ((digitsVal p.1 : ℤ), p.2)

/-- The value of a hexadecimal digit character, if it is one. -/
def hexVal (c : Char) : Option ℕ :=
  if '0' ≤ c && c ≤ '9' then some (c.toNat - 48)
  else if 'a' ≤ c && c ≤ 'f' then some (c.toNat - 87)
  else if 'A' ≤ c && c ≤ 'F' then some (c.toNat - 55)
  else none

/-- The single-character escapes JSON accepts after a backslash. -/
def unescChar (e : Char) : Option Char :=
  if e = '"' then some '"'
  else if e = '/' then some '/'
  else if e = '\\' then some '\\'
  else if e = 'b' then some (Char.ofNat 8)
  else if e = 'f' then some (Char.ofNat 12)
  else if e = 'n' then some '\n'
  else if e = 'r' then some '\r'
  else if e = 't' then some '\t'
  else none

/-- Read a string body after the opening quote, decoding escapes, up to and
including the closing quote. -/
def readStrBody (acc : List Char) : List Char → Option (String × List Char)
  | [] => none
  | c :: cs =>
      if c = '"' then some (⟨acc.reverse⟩, cs)
      else if c = '\\' then
        match cs with
        | [] => none
        | e :: cs2 =>
            if e = 'u' then
              match cs2 with
              | a :: b :: c1 :: d :: cs3 =>
                  match hexVal a, hexVal b, hexVal c1, hexVal d with
                  | some va, some vb, some vc, some vd =>
                      readStrBody
                        (Char.ofNat (((va * 16 + vb) * 16 + vc) * 16 + vd) :: acc) cs3
                  | _, _, _, _ => none
              | _ => none
            else
              match unescChar e with
              | some ch => readStrBody (ch :: acc) cs2
              | none => none
      else readStrBody (c :: acc) cs

mutual
/-- Parse one JSON value (whitespace-tolerant); `fuel` bounds the recursion
and is in practice the document size. -/
def parseVal : ℕ → List Char → Option (Json × List Char)
  | 0, _ => none
  | fuel + 1, cs =>
      match dropWs cs with
      | [] => none
      | c :: r =>
          if c = 'n' then
            match r with
            | 'u' :: 'l' :: 'l' :: r2 => some (.null, r2)
            | _ => none
          else if c = 't' then
            match r with
            | 'r' :: 'u' :: 'e' :: r2 => some (.bool true, r2)
            | _ => none
          else if c = 'f' then
            match r with
            | 'a' :: 'l' :: 's' :: 'e' :: r2 => some (.bool false, r2)
            | _ => none
          else if c = '"' then
            match readStrBody [] r with
            | some (s, r2) => some (.str s, r2)
            | none => none
          else if c = '[' then
            match dropWs r with
            | ']' :: r2 => some (.arr [], r2)
            | r2 =>
                match parseVal fuel r2 with
                | some (v, r3) =>
                    match parseArrTail fuel r3 with
                    | some (vs, r4) => some (.arr (v :: vs), r4)
                    | none => none
                | none => none
          else if c = '{' then
            match dropWs r with
            | '}' :: r2 => some (.obj [], r2)
            | r2 =>
                match parseMember fuel r2 with
                | some (kv, r3) =>
                    match parseObjTail fuel r3 with
                    | some (kvs, r4) => some (.obj (kv :: kvs), r4)
                    | none => none
                | none => none
          else
            match readInt (c :: r) with
            | some (n, r2) => some (.int n, r2)
            | none => none
/-- Parse `, value`* and the closing `]`. -/
def parseArrTail : ℕ → List Char → Option (List Json × List Char)
  | 0, _ => none
  | fuel + 1, cs =>
      match dropWs cs with
      | ',' :: r =>
          match parseVal fuel r with
          | some (v, r2) =>
              match parseArrTail fuel r2 with
              | some (vs, r3) => some (v :: vs, r3)
              | none => none
          | none => none
      | ']' :: r => some ([], r)
      | _ => none
/-- Parse one `"key": value` member. -/
def parseMember : ℕ → List Char → Option ((String × Json) × List Char)
  | 0, _ => none
  | fuel + 1, cs =>
      match dropWs cs with
      | '"' :: r =>
          match readStrBody [] r with
          | some (k, r2) =>
              match dropWs r2 with
              | ':' :: r3 =>
                  match parseVal fuel r3 with
                  | some (v, r4) => some ((k, v), r4)
                  | none => none
              | _ => none
          | none => none
      | _ => none
/-- Parse `, member`* and the closing `}`. -/
def parseObjTail : ℕ → List Char → Option (List (String × Json) × List Char)
  | 0, _ => none
  | fuel + 1, cs =>
      match dropWs cs with
      | ',' :: r =>
          match parseMember fuel r with
          | some (kv, r2) =>
              match parseObjTail fuel r2 with
              | some (kvs, r3) => some (kv :: kvs, r3)
              | none => none
          | none => none
      | '}' :: r => some ([], r)
      | _ => none
end

/-- Python `json.load`: parse one document and reject anything but trailing
whitespace. -/
def loads (s : String) : Option Json :=
  match parseVal (s.length + 1) s.data with
  | some (j, r) => if (dropWs r).isEmpty then some j else none
  | none => none

/-! ### The file system model and utils.py `read_json` / `write_json` -/

/-- The file system: paths to contents. -/
def FS : Type := List (String × String)

/-- utils.py `write_json(path, data)`: serialize to `path + ".tmp"`, then
`os.replace(tmp, path)` — the temp file's contents move to `path` and the
temp entry disappears. -/
def write_json (fs : FS) (path : String) (data : Json) : FS :=
  let tmp := path ++ ".tmp"
  let fs1 := alistSet fs tmp (dumps data)
  match alistGet fs1 tmp with
  | some contents => alistSet (fs1.filter (fun p => p.1 ≠ tmp)) path contents
  | none => fs1

/-- utils.py `read_json(path, default)`: missing file or any parse failure
falls back to `default`. -/
def read_json (fs : FS) (path : String) (default : Json) : Json :=
  match alistGet fs path with
  | none => default
  | some txt =>
      match loads txt with
      | some v => v
      | none => default

/-! ### Round-trip support: whitespace and digit runs -/

/-- Every character is whitespace. -/
def wsOnly : List Char → Bool
  | [] => true
  | c :: cs => isWsChar c && wsOnly cs

/-- The input cannot extend a digit run: empty or headed by a non-digit. -/
def numStop : List Char → Bool
  | [] => true
  | c :: _ => !isDigitChar c

theorem dropWs_cons_ws {c : Char} (cs : List Char) (h : isWsChar c = true) :
    dropWs (c :: cs) = dropWs cs := by simp [dropWs, h]

theorem dropWs_cons_not {c : Char} (cs : List Char) (h : isWsChar c = false) :
    dropWs (c :: cs) = c :: cs := by simp [dropWs, h]

theorem dropWs_wsOnly_append {ws : List Char} (cs : List Char) (h : wsOnly ws = true) :
    dropWs (ws ++ cs) = dropWs cs := by
  induction ws with
  | nil => rfl
  | cons c t ih =>
      simp only [wsOnly, Bool.and_eq_true] at h
      rw [List.cons_append, dropWs_cons_ws _ h.1, ih h.2]

theorem wsOnly_append {a b : List Char} (ha : wsOnly a = true) (hb : wsOnly b = true) :
    wsOnly (a ++ b) = true := by
  induction a with
  | nil => exact hb
  | cons c t ih =>
      simp only [wsOnly, Bool.and_eq_true] at ha ⊢
      exact ⟨ha.1, ih ha.2⟩

theorem wsOnly_indent (k : ℕ) : wsOnly (indentChars k) = true := by
  unfold indentChars
  induction 2 * k with
  | zero => rfl
  | succ n ih =>
      simp only [List.replicate_succ, wsOnly, Bool.and_eq_true]
      exact ⟨by decide, ih⟩

theorem ws_not_digit {c : Char} (h : isWsChar c = true) : isDigitChar c = false := by
  simp only [isWsChar, Bool.or_eq_true, decide_eq_true_eq] at h
  rcases h with ((rfl | rfl) | rfl) | rfl <;> decide

theorem numStop_wsOnly_append {ws : List Char} {cs : List Char} (hws : wsOnly ws = true)
    (h : numStop cs = true) : numStop (ws ++ cs) = true := by
  cases ws with
  | nil => exact h
  | cons c t =>
      simp only [wsOnly, Bool.and_eq_true] at hws
      simp [numStop, ws_not_digit hws.1]

theorem digitChar_digit (n : ℕ) : isDigitChar (digitChar n) = true := by
  by_cases h : n < 9
  · interval_cases n <;> rfl
  · obtain ⟨m, rfl⟩ : ∃ m, n = m + 9 := ⟨n - 9, by omega⟩
    rfl

theorem digitChar_val (n : ℕ) (h : n < 10) : (digitChar n).toNat - 48 = n := by
  interval_cases n <;> rfl

theorem natChars_eq (n : ℕ) :
    natChars n
      = if n < 10 then [digitChar n] else natChars (n / 10) ++ [digitChar (n % 10)] := by
  unfold natChars
  rw [natDigitsRev]
  by_cases h : n < 10
  · simp [h]
  · simp [h]

theorem natChars_digits (n : ℕ) : ∀ c ∈ natChars n, isDigitChar c = true := by
  induction n using Nat.strong_induction_on with
  | _ n ih =>
      rw [natChars_eq]
      by_cases h : n < 10
      · simp only [if_pos h, List.mem_singleton]
        rintro c rfl
        exact digitChar_digit n
      · simp only [if_neg h, List.mem_append, List.mem_singleton]
        rintro c (hc | rfl)
        · exact ih (n / 10) (Nat.div_lt_self (by omega) (by omega)) c hc
        · exact digitChar_digit (n % 10)

theorem natChars_ne_nil (n : ℕ) : natChars n ≠ [] := by
  rw [natChars_eq]
  by_cases h : n < 10 <;> simp [h]

theorem digitsVal_append_digit (l : List Char) (d : Char) :
    digitsVal (l ++ [d]) = digitsVal l * 10 + (d.toNat - 48) := by
  unfold digitsVal
  rw [List.foldl_append]
  rfl

theorem digitsVal_natChars (n : ℕ) : digitsVal (natChars n) = n := by
  induction n using Nat.strong_induction_on with
  | _ n ih =>
      rw [natChars_eq]
      by_cases h : n < 10
      · simp only [if_pos h]
        have : digitsVal [digitChar n] = (digitChar n).toNat - 48 := by
          unfold digitsVal
          simp
        rw [this, digitChar_val n h]
      · simp only [if_neg h]
        rw [digitsVal_append_digit,
          ih (n / 10) (Nat.div_lt_self (by omega) (by omega)),
          digitChar_val (n % 10) (Nat.mod_lt _ (by omega))]
        omega

theorem readDigits_digits_append {ds : List Char} (rest : List Char)
    (hds : ∀ c ∈ ds, isDigitChar c = true) (hrest : numStop rest = true) :
    readDigits (ds ++ rest) = (ds, rest) := by
  induction ds with
  | nil =>
      cases rest with
      | nil => rfl
      | cons c t =>
          simp only [numStop, Bool.not_eq_true'] at hrest
          simp [readDigits, hrest]
  | cons c t ih =>
      have hc := hds c (List.mem_cons_self _ _)
      simp [readDigits, hc, ih (fun x hx => hds x (List.mem_cons_of_mem _ hx))]

theorem digit_not_minus {c : Char} (h : isDigitChar c = true) : ¬c = '-' := by
  rintro rfl
  exact absurd h (by decide)

theorem readInt_intChars (i : ℤ) (rest : List Char) (hrest : numStop rest = true) :
    readInt (intChars i ++ rest) = some (i, rest) := by
  by_cases hi : i < 0
  · have : intChars i ++ rest = '-' :: (natChars i.natAbs ++ rest) := by
      simp [intChars, hi]
    rw [this]
    simp only [readInt, if_pos rfl]
    rw [readDigits_digits_append rest (natChars_digits _) hrest]
    have hne : (natChars i.natAbs).isEmpty = false := by
      rcases hc : natChars i.natAbs with _ | _
      · exact absurd hc (natChars_ne_nil _)
      · rfl
    simp only [hne, Bool.false_eq_true, if_false, if_true, digitsVal_natChars,
      Option.some.injEq, Prod.mk.injEq, and_true]
    omega
  · have hsign : intChars i = natChars i.natAbs := by simp [intChars, hi]
    rcases hc : natChars i.natAbs with _ | ⟨c, t⟩
    · exact absurd hc (natChars_ne_nil _)
    · have hcd : isDigitChar c = true := natChars_digits _ c (hc ▸ List.mem_cons_self _ _)
      have : intChars i ++ rest = c :: (t ++ rest) := by rw [hsign, hc]; rfl
      rw [this]
      simp only [readInt, if_neg (digit_not_minus hcd)]
      have : readDigits (c :: (t ++ rest)) = (c :: t, rest) := by
        have := readDigits_digits_append rest (natChars_digits i.natAbs) hrest
        rwa [hc, List.cons_append] at this
      rw [this]
      have : digitsVal (c :: t) = i.natAbs := by
        have := digitsVal_natChars i.natAbs
        rwa [hc] at this
      simp [this]
      omega

/-! ### Round-trip support: strings -/

theorem hexVal_hexChar (n : ℕ) (h : n < 16) : hexVal (hexChar n) = some n := by
  interval_cases n <;> rfl

theorem readStrBody_escChar (c : Char) (acc rest : List Char) :
    readStrBody acc (escChar c ++ rest) = readStrBody (c :: acc) rest := by
  unfold escChar
  by_cases h1 : c = '"'
  · subst h1
    rw [if_pos rfl, List.cons_append, List.cons_append, List.nil_append, readStrBody.eq_def]
    norm_num +decide [unescChar]
  · rw [if_neg h1]
    by_cases h2 : c = '\\'
    · subst h2
      rw [if_pos rfl, List.cons_append, List.cons_append, List.nil_append, readStrBody.eq_def]
      norm_num +decide [unescChar]
    · rw [if_neg h2]
      by_cases h3 : c = '\n'
      · subst h3
        rw [if_pos rfl, List.cons_append, List.cons_append, List.nil_append, readStrBody.eq_def]
        norm_num +decide [unescChar]
      · rw [if_neg h3]
        by_cases h4 : c = '\r'
        · subst h4
          rw [if_pos rfl, List.cons_append, List.cons_append, List.nil_append,
            readStrBody.eq_def]
          norm_num +decide [unescChar]
        · rw [if_neg h4]
          by_cases h5 : c = '\t'
          · subst h5
            rw [if_pos rfl, List.cons_append, List.cons_append, List.nil_append,
              readStrBody.eq_def]
            norm_num +decide [unescChar]
          · rw [if_neg h5]
            by_cases h6 : c = Char.ofNat 8
            · subst h6
              rw [if_pos rfl, List.cons_append, List.cons_append, List.nil_append,
                readStrBody.eq_def]
              norm_num +decide [unescChar]
            · rw [if_neg h6]
              by_cases h7 : c = Char.ofNat 12
              · subst h7
                rw [if_pos rfl, List.cons_append, List.cons_append, List.nil_append,
                  readStrBody.eq_def]
                norm_num +decide [unescChar]
              · rw [if_neg h7]
                by_cases h8 : c.toNat < 32
                · rw [if_pos h8]
                  have hhi : c.toNat / 16 < 16 := by omega
                  have hlo : c.toNat % 16 < 16 := by omega
                  show readStrBody acc
                      ('\\' :: 'u' :: '0' :: '0' :: hexChar (c.toNat / 16)
                        :: hexChar (c.toNat % 16) :: rest)
                    = readStrBody (c :: acc) rest
                  rw [readStrBody.eq_def]
                  norm_num +decide [hexVal_hexChar _ hhi, hexVal_hexChar _ hlo,
                    show hexVal '0' = some 0 from rfl]
                  rw [show c.toNat / 16 * 16 + c.toNat % 16 = c.toNat from by omega,
                    Char.ofNat_toNat]
                · rw [if_neg h8]
                  show readStrBody acc (c :: rest) = readStrBody (c :: acc) rest
                  rw [readStrBody.eq_def]
                  simp only [if_neg h1, if_neg h2]

theorem readStrBody_flatMap (cs : List Char) :
    ∀ (acc rest : List Char),
      readStrBody acc (cs.flatMap escChar ++ '"' :: rest)
        = some (⟨acc.reverse ++ cs⟩, rest) := by
  induction cs with
  | nil =>
      intro acc rest
      simp only [List.flatMap_nil, List.nil_append, List.append_nil]
      rw [readStrBody.eq_def]
      norm_num +decide
  | cons c t ih =>
      intro acc rest
      have h1 : (c :: t).flatMap escChar ++ '"' :: rest
          = escChar c ++ (t.flatMap escChar ++ '"' :: rest) := by
        rw [List.flatMap_cons, List.append_assoc]
      rw [h1, readStrBody_escChar, ih]
      simp

/-- The string-body round trip: reading back a rendered string recovers it. -/
theorem readStrBody_strChars (s : String) (rest : List Char) :
    readStrBody [] (s.data.flatMap escChar ++ '"' :: rest) = some (s, rest) := by
  rw [readStrBody_flatMap]
  rfl

/-! ### Round-trip support: document sizes and head characters -/

mutual
/-- Node count of a document (the parse fuel it needs). -/
def jsize : Json → ℕ
  | .null => 1
  | .bool _ => 1
  | .int _ => 1
  | .str _ => 1
  | .arr xs => 1 + asize xs
  | .obj kvs => 1 + osize kvs
def asize : List Json → ℕ
  | [] => 1
  | x :: xs => 1 + jsize x + asize xs
def osize : List (String × Json) → ℕ
  | [] => 1
  | kv :: kvs => 1 + jsize kv.2 + osize kvs
end

theorem jsize_pos (j : Json) : 1 ≤ jsize j := by
  cases j <;> simp [jsize]

theorem asize_pos (xs : List Json) : 1 ≤ asize xs := by
  cases xs <;> simp [asize] <;> omega

theorem osize_pos (kvs : List (String × Json)) : 1 ≤ osize kvs := by
  cases kvs <;> simp [osize] <;> omega

theorem digit_ne_lits {c : Char} (h : isDigitChar c = true) :
    ¬c = 'n' ∧ ¬c = 't' ∧ ¬c = 'f' ∧ ¬c = '"' ∧ ¬c = '[' ∧ ¬c = '{' := by
  refine ⟨?_, ?_, ?_, ?_, ?_, ?_⟩ <;> (rintro rfl; exact absurd h (by decide))

theorem digit_not_ws {c : Char} (h : isDigitChar c = true) : isWsChar c = false := by
  by_cases hw : isWsChar c = true
  · exact absurd h (by simp [ws_not_digit hw])
  · simpa using hw

theorem digit_ne_brackets {c : Char} (h : isDigitChar c = true) :
    ¬c = ']' ∧ ¬c = '}' := by
  refine ⟨?_, ?_⟩ <;> (rintro rfl; exact absurd h (by decide))

/-- A rendered value starts with a non-whitespace character that is no
closing bracket. -/
theorem dumpVal_head (level : ℕ) (j : Json) :
    ∃ c t, dumpVal level j = c :: t ∧ isWsChar c = false ∧ ¬c = ']' ∧ ¬c = '}' := by
  cases j with
  | null => exact ⟨'n', ['u', 'l', 'l'], by simp [dumpVal, nullChars], by decide, by decide, by decide⟩
  | bool b =>
      cases b
      · exact ⟨'f', ['a', 'l', 's', 'e'], by simp [dumpVal, falseChars], by decide, by decide, by decide⟩
      · exact ⟨'t', ['r', 'u', 'e'], by simp [dumpVal, trueChars], by decide, by decide, by decide⟩
  | int n =>
      by_cases hn : n < 0
      · refine ⟨'-', natChars n.natAbs, ?_, by decide, by decide, by decide⟩
        simp [dumpVal, intChars, hn]
      · rcases hc : natChars n.natAbs with _ | ⟨c, t⟩
        · exact absurd hc (natChars_ne_nil _)
        · have hcd : isDigitChar c = true := natChars_digits _ c (hc ▸ List.mem_cons_self _ _)
          refine ⟨c, t, ?_, digit_not_ws hcd, (digit_ne_brackets hcd).1,
            (digit_ne_brackets hcd).2⟩
          simp [dumpVal, intChars, hn, hc]
  | str s =>
      exact ⟨'"', s.data.flatMap escChar ++ ['"'], by simp [dumpVal, strChars],
        by decide, by decide, by decide⟩
  | arr xs =>
      cases xs with
      | nil => exact ⟨'[', [']'], by simp [dumpVal], by decide, by decide, by decide⟩
      | cons x t =>
          exact ⟨'[', '\n' :: (indentChars (level + 1) ++ (dumpVal (level + 1) x
              ++ (dumpArrTail (level + 1) t ++ '\n' :: (indentChars level ++ [']'])))),
            by simp [dumpVal, List.append_assoc], by decide, by decide, by decide⟩
  | obj kvs =>
      cases kvs with
      | nil => exact ⟨'{', ['}'], by simp [dumpVal], by decide, by decide, by decide⟩
      | cons kv t =>
          exact ⟨'{', '\n' :: (indentChars (level + 1) ++ (strChars kv.1 ++ ':' :: ' '
              :: (dumpVal (level + 1) kv.2
              ++ (dumpObjTail (level + 1) t ++ '\n' :: (indentChars level ++ ['}']))))),
            by simp [dumpVal, List.append_assoc], by decide, by decide, by decide⟩

theorem numStop_ws_close {wsc rest : List Char} (c0 : Char) (hc0 : isDigitChar c0 = false)
    (hws : wsOnly wsc = true) : numStop (wsc ++ c0 :: rest) = true := by
  cases wsc with
  | nil => simp [numStop, hc0]
  | cons c t =>
      simp only [wsOnly, Bool.and_eq_true] at hws
      simp [numStop, ws_not_digit hws.1]

theorem numStop_arrTail (lv : ℕ) (xs : List Json) {wsc rest : List Char}
    (hws : wsOnly wsc = true) :
    numStop (dumpArrTail lv xs ++ (wsc ++ ']' :: rest)) = true := by
  cases xs with
  | nil =>
      simp only [dumpArrTail, List.nil_append]
      exact numStop_ws_close ']' (by decide) hws
  | cons x t =>
      simp only [dumpArrTail, List.cons_append, numStop]
      decide

theorem numStop_objTail (lv : ℕ) (kvs : List (String × Json)) {wsc rest : List Char}
    (hws : wsOnly wsc = true) :
    numStop (dumpObjTail lv kvs ++ (wsc ++ '}' :: rest)) = true := by
  cases kvs with
  | nil =>
      simp only [dumpObjTail, List.nil_append]
      exact numStop_ws_close '}' (by decide) hws
  | cons kv t =>
      simp only [dumpObjTail, List.cons_append, numStop]
      decide

/-! ### The codec round trip, by induction on the parse fuel -/

theorem parse_dump_null (fuel level : ℕ) (ws rest : List Char) (hws : wsOnly ws = true) :
    parseVal (fuel + 1) (ws ++ (dumpVal level .null ++ rest)) = some (.null, rest) := by
  have hdv : dumpVal level Json.null = ['n', 'u', 'l', 'l'] := by simp [dumpVal, nullChars]
  have hd : dropWs (ws ++ (dumpVal level Json.null ++ rest))
      = 'n' :: ('u' :: 'l' :: 'l' :: rest) := by
    rw [dropWs_wsOnly_append _ hws, hdv]
    exact dropWs_cons_not _ (by decide)
  rw [parseVal.eq_def]
  simp only [hd]
  norm_num +decide

theorem parse_dump_true (fuel level : ℕ) (ws rest : List Char) (hws : wsOnly ws = true) :
    parseVal (fuel + 1) (ws ++ (dumpVal level (.bool true) ++ rest))
      = some (.bool true, rest) := by
  have hdv : dumpVal level (Json.bool true) = ['t', 'r', 'u', 'e'] := by simp [dumpVal, trueChars]
  have hd : dropWs (ws ++ (dumpVal level (Json.bool true) ++ rest))
      = 't' :: ('r' :: 'u' :: 'e' :: rest) := by
    rw [dropWs_wsOnly_append _ hws, hdv]
    exact dropWs_cons_not _ (by decide)
  rw [parseVal.eq_def]
  simp only [hd]
  norm_num +decide

theorem parse_dump_str (fuel level : ℕ) (s : String) (ws rest : List Char)
    (hws : wsOnly ws = true) :
    parseVal (fuel + 1) (ws ++ (dumpVal level (.str s) ++ rest)) = some (.str s, rest) := by
  have hd : dropWs (ws ++ (dumpVal level (Json.str s) ++ rest))
      = '"' :: (s.data.flatMap escChar ++ ('"' :: rest)) := by
    rw [dropWs_wsOnly_append _ hws]
    have hdv : dumpVal level (Json.str s) ++ rest
        = '"' :: (s.data.flatMap escChar ++ ('"' :: rest)) := by
      simp [dumpVal, strChars, List.append_assoc]
    rw [hdv]
    exact dropWs_cons_not _ (by decide)
  rw [parseVal.eq_def]
  simp only [hd]
  norm_num +decide [readStrBody_strChars]

theorem parse_dump_int (fuel level : ℕ) (n : ℤ) (ws rest : List Char)
    (hws : wsOnly ws = true) (hrest : numStop rest = true) :
    parseVal (fuel + 1) (ws ++ (dumpVal level (.int n) ++ rest)) = some (.int n, rest) := by
  have hdv : dumpVal level (Json.int n) = intChars n := by simp [dumpVal]
  rcases hc : intChars n with _ | ⟨c, t⟩
  · exfalso
    unfold intChars at hc
    by_cases hn : n < 0
    · simp [hn] at hc
    · simp [hn] at hc
      exact natChars_ne_nil _ hc
  · have hcprop : c = '-' ∨ isDigitChar c = true := by
      unfold intChars at hc
      by_cases hn : n < 0
      · simp only [if_pos hn] at hc
        exact Or.inl (List.cons.injEq .. ▸ hc).1.symm
      · simp only [if_neg hn] at hc
        exact Or.inr (natChars_digits _ c (hc ▸ List.mem_cons_self _ _))
    have hnws : isWsChar c = false := by
      rcases hcprop with rfl | hd
      · decide
      · exact digit_not_ws hd
    have hne : ¬c = 'n' ∧ ¬c = 't' ∧ ¬c = 'f' ∧ ¬c = '"' ∧ ¬c = '[' ∧ ¬c = '{' := by
      rcases hcprop with rfl | hd
      · exact ⟨by decide, by decide, by decide, by decide, by decide, by decide⟩
      · exact digit_ne_lits hd
    have hd : dropWs (ws ++ (dumpVal level (Json.int n) ++ rest)) = c :: (t ++ rest) := by
      rw [dropWs_wsOnly_append _ hws, hdv, hc, List.cons_append]
      exact dropWs_cons_not _ hnws
    have hri : readInt (c :: (t ++ rest)) = some (n, rest) := by
      have h0 := readInt_intChars n rest hrest
      rwa [hc, List.cons_append] at h0
    rw [parseVal.eq_def]
    simp only [hd, if_neg hne.1, if_neg hne.2.1, if_neg hne.2.2.1, if_neg hne.2.2.2.1,
      if_neg hne.2.2.2.2.1, if_neg hne.2.2.2.2.2, hri]

theorem wsOnly_cons (c : Char) (cs : List Char) :
    wsOnly (c :: cs) = (isWsChar c && wsOnly cs) := by
  rw [wsOnly.eq_def]

theorem parse_dump_arr_nil (fuel level : ℕ) (ws rest : List Char) (hws : wsOnly ws = true) :
    parseVal (fuel + 1) (ws ++ (dumpVal level (.arr []) ++ rest))
      = some (.arr [], rest) := by
  have hdv : dumpVal level (Json.arr []) = ['[', ']'] := by simp [dumpVal]
  have hd : dropWs (ws ++ (dumpVal level (Json.arr []) ++ rest)) = '[' :: (']' :: rest) := by
    rw [dropWs_wsOnly_append _ hws, hdv]
    exact dropWs_cons_not _ (by decide)
  have hd2 : dropWs (']' :: rest) = ']' :: rest := dropWs_cons_not _ (by decide)
  rw [parseVal.eq_def]
  simp only [hd, hd2]
  norm_num +decide

theorem parse_dump_arr_cons (fuel level : ℕ) (x : Json) (xs : List Json) (ws rest : List Char)
    (hws : wsOnly ws = true) (hrest : numStop rest = true)
    (ihV : ∀ (j : Json) (lv : ℕ) (w r : List Char), jsize j ≤ fuel → wsOnly w = true →
      numStop r = true → parseVal fuel (w ++ (dumpVal lv j ++ r)) = some (j, r))
    (ihA : ∀ (l : List Json) (lv : ℕ) (w r : List Char), asize l ≤ fuel → wsOnly w = true →
      parseArrTail fuel (dumpArrTail lv l ++ (w ++ ']' :: r)) = some (l, r))
    (hf : jsize (.arr (x :: xs)) ≤ fuel + 1) :
    parseVal (fuel + 1) (ws ++ (dumpVal level (.arr (x :: xs)) ++ rest))
      = some (.arr (x :: xs), rest) := by
  have hx : jsize x ≤ fuel := by
    simp only [jsize, asize] at hf
    have := asize_pos xs
    omega
  have hxs : asize xs ≤ fuel := by
    simp only [jsize, asize] at hf
    have := jsize_pos x
    omega
  have hwsc : wsOnly ('\n' :: indentChars level) = true := by
    rw [wsOnly_cons, wsOnly_indent]
    decide
  have hwsi : wsOnly ('\n' :: indentChars (level + 1)) = true := by
    rw [wsOnly_cons, wsOnly_indent]
    decide
  -- the rendered array, reassociated around the first item
  have hdv : dumpVal level (Json.arr (x :: xs)) ++ rest
      = '[' :: (('\n' :: indentChars (level + 1)) ++ (dumpVal (level + 1) x
          ++ (dumpArrTail (level + 1) xs ++ (('\n' :: indentChars level) ++ (']' :: rest))))) := by
    simp [dumpVal, List.append_assoc]
  have hd : dropWs (ws ++ (dumpVal level (Json.arr (x :: xs)) ++ rest))
      = '[' :: (('\n' :: indentChars (level + 1)) ++ (dumpVal (level + 1) x
          ++ (dumpArrTail (level + 1) xs ++ (('\n' :: indentChars level) ++ (']' :: rest))))) := by
    rw [dropWs_wsOnly_append _ hws, hdv]
    exact dropWs_cons_not _ (by decide)
  obtain ⟨c0, t0, hx0, hnws0, hne0, _⟩ := dumpVal_head (level + 1) x
  have hin : dropWs (('\n' :: indentChars (level + 1)) ++ (dumpVal (level + 1) x
      ++ (dumpArrTail (level + 1) xs ++ (('\n' :: indentChars level) ++ (']' :: rest)))))
      = c0 :: (t0 ++ (dumpArrTail (level + 1) xs
          ++ (('\n' :: indentChars level) ++ (']' :: rest)))) := by
    rw [dropWs_wsOnly_append _ hwsi, hx0, List.cons_append]
    exact dropWs_cons_not _ hnws0
  have htail : numStop (dumpArrTail (level + 1) xs
      ++ (('\n' :: indentChars level) ++ (']' :: rest))) = true := by
    exact numStop_arrTail (level + 1) xs hwsc
  have hpv : parseVal fuel (dumpVal (level + 1) x ++ (dumpArrTail (level + 1) xs
      ++ (('\n' :: indentChars level) ++ (']' :: rest))))
      = some (x, dumpArrTail (level + 1) xs ++ (('\n' :: indentChars level) ++ (']' :: rest))) := by
    have := ihV x (level + 1) []
      (dumpArrTail (level + 1) xs ++ (('\n' :: indentChars level) ++ (']' :: rest))) hx rfl htail
    simpa using this
  have hpt : parseArrTail fuel (dumpArrTail (level + 1) xs
      ++ (('\n' :: indentChars level) ++ (']' :: rest))) = some (xs, rest) :=
    ihA xs (level + 1) ('\n' :: indentChars level) rest hxs hwsc
  have hpv' : parseVal fuel (c0 :: (t0 ++ (dumpArrTail (level + 1) xs
      ++ (('\n' :: indentChars level) ++ (']' :: rest)))))
      = some (x, dumpArrTail (level + 1) xs ++ (('\n' :: indentChars level) ++ (']' :: rest))) := by
    rw [← List.cons_append, ← hx0]
    exact hpv
  rw [parseVal.eq_def]
  simp only [hd, hin]
  norm_num +decide
  split
  · rename_i r2 heq
    rw [List.cons.injEq] at heq
    exact absurd heq.1 hne0
  · simp only [List.cons_append] at hpv' hpt
    simp only [hpv', hpt]

theorem parse_dump_arrTail_nil (fuel lv : ℕ) (wsc rest : List Char) (hws : wsOnly wsc = true) :
    parseArrTail (fuel + 1) (dumpArrTail lv [] ++ (wsc ++ ']' :: rest)) = some ([], rest) := by
  have hd : dropWs (dumpArrTail lv [] ++ (wsc ++ ']' :: rest)) = ']' :: rest := by
    simp only [dumpArrTail, List.nil_append]
    rw [dropWs_wsOnly_append _ hws]
    exact dropWs_cons_not _ (by decide)
  rw [parseArrTail.eq_def]
  simp only [hd]

theorem parse_dump_arrTail_cons (fuel lv : ℕ) (x : Json) (xs : List Json) (wsc rest : List Char)
    (hws : wsOnly wsc = true)
    (ihV : ∀ (j : Json) (l : ℕ) (w r : List Char), jsize j ≤ fuel → wsOnly w = true →
      numStop r = true → parseVal fuel (w ++ (dumpVal l j ++ r)) = some (j, r))
    (ihA : ∀ (l : List Json) (l2 : ℕ) (w r : List Char), asize l ≤ fuel → wsOnly w = true →
      parseArrTail fuel (dumpArrTail l2 l ++ (w ++ ']' :: r)) = some (l, r))
    (hf : asize (x :: xs) ≤ fuel + 1) :
    parseArrTail (fuel + 1) (dumpArrTail lv (x :: xs) ++ (wsc ++ ']' :: rest))
      = some (x :: xs, rest) := by
  have hx : jsize x ≤ fuel := by
    simp only [asize] at hf
    have := asize_pos xs
    omega
  have hxs : asize xs ≤ fuel := by
    simp only [asize] at hf
    have := jsize_pos x
    omega
  have hwsn : wsOnly ('\n' :: indentChars lv) = true := by
    rw [wsOnly_cons, wsOnly_indent]
    decide
  have htail : numStop (dumpArrTail lv xs ++ (wsc ++ ']' :: rest)) = true :=
    numStop_arrTail lv xs hws
  have hpv := ihV x lv ('\n' :: indentChars lv)
    (dumpArrTail lv xs ++ (wsc ++ ']' :: rest)) hx hwsn htail
  have hpt := ihA xs lv wsc rest hxs hws
  have hin : dumpArrTail lv (x :: xs) ++ (wsc ++ ']' :: rest)
      = ',' :: ('\n' :: (indentChars lv ++ (dumpVal lv x
          ++ (dumpArrTail lv xs ++ (wsc ++ ']' :: rest))))) := by
    simp [dumpArrTail, List.append_assoc]
  rw [parseArrTail.eq_def]
  simp only [hin]
  have hd : dropWs (',' :: ('\n' :: (indentChars lv ++ (dumpVal lv x
      ++ (dumpArrTail lv xs ++ (wsc ++ ']' :: rest))))))
      = ',' :: ('\n' :: (indentChars lv ++ (dumpVal lv x
          ++ (dumpArrTail lv xs ++ (wsc ++ ']' :: rest))))) :=
    dropWs_cons_not _ (by decide)
  simp only [hd]
  simp only [List.cons_append] at hpv
  norm_num +decide [hpv, hpt]

theorem parse_dump_member (fuel lv : ℕ) (k : String) (v : Json) (ws2 rest : List Char)
    (hws2 : wsOnly ws2 = true) (hrest : numStop rest = true)
    (ihV : ∀ (j : Json) (l : ℕ) (w r : List Char), jsize j ≤ fuel → wsOnly w = true →
      numStop r = true → parseVal fuel (w ++ (dumpVal l j ++ r)) = some (j, r))
    (hf : 1 + jsize v ≤ fuel + 1) :
    parseMember (fuel + 1) (ws2 ++ (strChars k ++ ':' :: ' ' :: (dumpVal lv v ++ rest)))
      = some ((k, v), rest) := by
  have hv : jsize v ≤ fuel := by omega
  have hd : dropWs (ws2 ++ (strChars k ++ ':' :: ' ' :: (dumpVal lv v ++ rest)))
      = '"' :: (k.data.flatMap escChar
          ++ ('"' :: (':' :: ' ' :: (dumpVal lv v ++ rest)))) := by
    rw [dropWs_wsOnly_append _ hws2]
    have : strChars k ++ ':' :: ' ' :: (dumpVal lv v ++ rest)
        = '"' :: (k.data.flatMap escChar
            ++ ('"' :: (':' :: ' ' :: (dumpVal lv v ++ rest)))) := by
      simp [strChars, List.append_assoc]
    rw [this]
    exact dropWs_cons_not _ (by decide)
  have hrs := readStrBody_strChars k (':' :: ' ' :: (dumpVal lv v ++ rest))
  have hdc : dropWs (':' :: ' ' :: (dumpVal lv v ++ rest))
      = ':' :: ' ' :: (dumpVal lv v ++ rest) := dropWs_cons_not _ (by decide)
  have hpv := ihV v lv [' '] rest hv (by decide) hrest
  simp only [List.cons_append, List.nil_append] at hpv
  rw [parseMember.eq_def]
  simp only [hd, hrs, hdc]
  norm_num +decide [hpv]

theorem parse_dump_objTail_nil (fuel lv : ℕ) (wsc rest : List Char) (hws : wsOnly wsc = true) :
    parseObjTail (fuel + 1) (dumpObjTail lv [] ++ (wsc ++ '}' :: rest)) = some ([], rest) := by
  have hd : dropWs (dumpObjTail lv [] ++ (wsc ++ '}' :: rest)) = '}' :: rest := by
    simp only [dumpObjTail, List.nil_append]
    rw [dropWs_wsOnly_append _ hws]
    exact dropWs_cons_not _ (by decide)
  rw [parseObjTail.eq_def]
  simp only [hd]

theorem parse_dump_objTail_cons (fuel lv : ℕ) (kv : String × Json) (kvs : List (String × Json))
    (wsc rest : List Char) (hws : wsOnly wsc = true)
    (ihM : ∀ (k : String) (v : Json) (l : ℕ) (w r : List Char), 1 + jsize v ≤ fuel →
      wsOnly w = true → numStop r = true →
      parseMember fuel (w ++ (strChars k ++ ':' :: ' ' :: (dumpVal l v ++ r)))
        = some ((k, v), r))
    (ihO : ∀ (l : List (String × Json)) (l2 : ℕ) (w r : List Char), osize l ≤ fuel →
      wsOnly w = true →
      parseObjTail fuel (dumpObjTail l2 l ++ (w ++ '}' :: r)) = some (l, r))
    (hf : osize (kv :: kvs) ≤ fuel + 1) :
    parseObjTail (fuel + 1) (dumpObjTail lv (kv :: kvs) ++ (wsc ++ '}' :: rest))
      = some (kv :: kvs, rest) := by
  have hv : 1 + jsize kv.2 ≤ fuel := by
    simp only [osize] at hf
    have := osize_pos kvs
    omega
  have hkvs : osize kvs ≤ fuel := by
    simp only [osize] at hf
    have := jsize_pos kv.2
    omega
  have hwsn : wsOnly ('\n' :: indentChars lv) = true := by
    rw [wsOnly_cons, wsOnly_indent]
    decide
  have htail : numStop (dumpObjTail lv kvs ++ (wsc ++ '}' :: rest)) = true :=
    numStop_objTail lv kvs hws
  have hpm := ihM kv.1 kv.2 lv ('\n' :: indentChars lv)
    (dumpObjTail lv kvs ++ (wsc ++ '}' :: rest)) hv hwsn htail
  have hpt := ihO kvs lv wsc rest hkvs hws
  have hin : dumpObjTail lv (kv :: kvs) ++ (wsc ++ '}' :: rest)
      = ',' :: ('\n' :: (indentChars lv ++ (strChars kv.1 ++ ':' :: ' '
          :: (dumpVal lv kv.2 ++ (dumpObjTail lv kvs ++ (wsc ++ '}' :: rest)))))) := by
    simp [dumpObjTail, List.append_assoc]
  rw [parseObjTail.eq_def]
  simp only [hin]
  have hd : dropWs (',' :: ('\n' :: (indentChars lv ++ (strChars kv.1 ++ ':' :: ' '
      :: (dumpVal lv kv.2 ++ (dumpObjTail lv kvs ++ (wsc ++ '}' :: rest)))))))
      = ',' :: ('\n' :: (indentChars lv ++ (strChars kv.1 ++ ':' :: ' '
          :: (dumpVal lv kv.2 ++ (dumpObjTail lv kvs ++ (wsc ++ '}' :: rest)))))) :=
    dropWs_cons_not _ (by decide)
  simp only [hd]
  simp only [List.cons_append] at hpm
  norm_num +decide [hpm, hpt]

theorem parse_dump_obj_nil (fuel level : ℕ) (ws rest : List Char) (hws : wsOnly ws = true) :
    parseVal (fuel + 1) (ws ++ (dumpVal level (.obj []) ++ rest))
      = some (.obj [], rest) := by
  have hdv : dumpVal level (Json.obj []) = ['{', '}'] := by simp [dumpVal]
  have hd : dropWs (ws ++ (dumpVal level (Json.obj []) ++ rest)) = '{' :: ('}' :: rest) := by
    rw [dropWs_wsOnly_append _ hws, hdv]
    exact dropWs_cons_not _ (by decide)
  have hd2 : dropWs ('}' :: rest) = '}' :: rest := dropWs_cons_not _ (by decide)
  rw [parseVal.eq_def]
  simp only [hd, hd2]
  norm_num +decide

theorem parse_dump_obj_cons (fuel level : ℕ) (kv : String × Json) (kvs : List (String × Json))
    (ws rest : List Char) (hws : wsOnly ws = true) (hrest : numStop rest = true)
    (ihM : ∀ (k : String) (v : Json) (l : ℕ) (w r : List Char), 1 + jsize v ≤ fuel →
      wsOnly w = true → numStop r = true →
      parseMember fuel (w ++ (strChars k ++ ':' :: ' ' :: (dumpVal l v ++ r)))
        = some ((k, v), r))
    (ihO : ∀ (l : List (String × Json)) (l2 : ℕ) (w r : List Char), osize l ≤ fuel →
      wsOnly w = true →
      parseObjTail fuel (dumpObjTail l2 l ++ (w ++ '}' :: r)) = some (l, r))
    (hf : jsize (.obj (kv :: kvs)) ≤ fuel + 1) :
    parseVal (fuel + 1) (ws ++ (dumpVal level (.obj (kv :: kvs)) ++ rest))
      = some (.obj (kv :: kvs), rest) := by
  have hv : 1 + jsize kv.2 ≤ fuel := by
    simp only [jsize, osize] at hf
    have := osize_pos kvs
    omega
  have hkvs : osize kvs ≤ fuel := by
    simp only [jsize, osize] at hf
    have := jsize_pos kv.2
    omega
  have hwsc : wsOnly ('\n' :: indentChars level) = true := by
    rw [wsOnly_cons, wsOnly_indent]
    decide
  have hwsi : wsOnly ('\n' :: indentChars (level + 1)) = true := by
    rw [wsOnly_cons, wsOnly_indent]
    decide
  have hdv : dumpVal level (Json.obj (kv :: kvs)) ++ rest
      = '{' :: (('\n' :: indentChars (level + 1)) ++ (strChars kv.1 ++ ':' :: ' '
          :: (dumpVal (level + 1) kv.2 ++ (dumpObjTail (level + 1) kvs
            ++ (('\n' :: indentChars level) ++ ('}' :: rest)))))) := by
    simp [dumpVal, List.append_assoc]
  have hd : dropWs (ws ++ (dumpVal level (Json.obj (kv :: kvs)) ++ rest))
      = '{' :: (('\n' :: indentChars (level + 1)) ++ (strChars kv.1 ++ ':' :: ' '
          :: (dumpVal (level + 1) kv.2 ++ (dumpObjTail (level + 1) kvs
            ++ (('\n' :: indentChars level) ++ ('}' :: rest)))))) := by
    rw [dropWs_wsOnly_append _ hws, hdv]
    exact dropWs_cons_not _ (by decide)
  have hin : dropWs (('\n' :: indentChars (level + 1)) ++ (strChars kv.1 ++ ':' :: ' '
      :: (dumpVal (level + 1) kv.2 ++ (dumpObjTail (level + 1) kvs
        ++ (('\n' :: indentChars level) ++ ('}' :: rest))))))
      = '"' :: (kv.1.data.flatMap escChar ++ ('"' :: (':' :: ' '
          :: (dumpVal (level + 1) kv.2 ++ (dumpObjTail (level + 1) kvs
            ++ (('\n' :: indentChars level) ++ ('}' :: rest))))))) := by
    rw [dropWs_wsOnly_append _ hwsi]
    have : strChars kv.1 ++ ':' :: ' ' :: (dumpVal (level + 1) kv.2
        ++ (dumpObjTail (level + 1) kvs ++ (('\n' :: indentChars level) ++ ('}' :: rest))))
        = '"' :: (kv.1.data.flatMap escChar ++ ('"' :: (':' :: ' '
            :: (dumpVal (level + 1) kv.2 ++ (dumpObjTail (level + 1) kvs
              ++ (('\n' :: indentChars level) ++ ('}' :: rest))))))) := by
      simp [strChars, List.append_assoc]
    rw [this]
    exact dropWs_cons_not _ (by decide)
  have htail : numStop (dumpObjTail (level + 1) kvs
      ++ (('\n' :: indentChars level) ++ ('}' :: rest))) = true :=
    numStop_objTail (level + 1) kvs hwsc
  have hpm := ihM kv.1 kv.2 (level + 1) []
    (dumpObjTail (level + 1) kvs ++ (('\n' :: indentChars level) ++ ('}' :: rest)))
    hv rfl htail
  have hpt := ihO kvs (level + 1) ('\n' :: indentChars level) rest hkvs hwsc
  rw [parseVal.eq_def]
  simp only [hd, hin]
  simp only [strChars, List.cons_append, List.nil_append, List.append_assoc] at hpm hpt
  norm_num +decide [hpm, hpt]


theorem parse_dump_false (fuel level : ℕ) (ws rest : List Char) (hws : wsOnly ws = true) :
    parseVal (fuel + 1) (ws ++ (dumpVal level (.bool false) ++ rest))
      = some (.bool false, rest) := by
  have hdv : dumpVal level (Json.bool false) = ['f', 'a', 'l', 's', 'e'] := by simp [dumpVal, falseChars]
  have hd : dropWs (ws ++ (dumpVal level (Json.bool false) ++ rest))
      = 'f' :: ('a' :: 'l' :: 's' :: 'e' :: rest) := by
    rw [dropWs_wsOnly_append _ hws, hdv]
    exact dropWs_cons_not _ (by decide)
  rw [parseVal.eq_def]
  simp only [hd]
  norm_num +decide

/-- The whole-grammar round trip, by induction on the parse fuel: a rendered
value (array tail, member, object tail) parses back to itself, tolerating
leading whitespace and any non-digit-headed remainder. -/
theorem parse_dump_master (fuel : ℕ) :
    (∀ (j : Json) (level : ℕ) (ws rest : List Char), jsize j ≤ fuel → wsOnly ws = true →
      numStop rest = true → parseVal fuel (ws ++ (dumpVal level j ++ rest)) = some (j, rest))
    ∧ (∀ (xs : List Json) (lv : ℕ) (wsc rest : List Char), asize xs ≤ fuel →
      wsOnly wsc = true →
      parseArrTail fuel (dumpArrTail lv xs ++ (wsc ++ ']' :: rest)) = some (xs, rest))
    ∧ (∀ (k : String) (v : Json) (lv : ℕ) (ws2 rest : List Char), 1 + jsize v ≤ fuel →
      wsOnly ws2 = true → numStop rest = true →
      parseMember fuel (ws2 ++ (strChars k ++ ':' :: ' ' :: (dumpVal lv v ++ rest)))
        = some ((k, v), rest))
    ∧ (∀ (kvs : List (String × Json)) (lv : ℕ) (wsc rest : List Char), osize kvs ≤ fuel →
      wsOnly wsc = true →
      parseObjTail fuel (dumpObjTail lv kvs ++ (wsc ++ '}' :: rest)) = some (kvs, rest)) := by
  induction fuel with
  | zero =>
      refine ⟨?_, ?_, ?_, ?_⟩
      · intro j _ _ _ hf _ _
        exact absurd hf (by have := jsize_pos j; omega)
      · intro xs _ _ _ hf _
        exact absurd hf (by have := asize_pos xs; omega)
      · intro _ v _ _ _ hf _ _
        exact absurd hf (by omega)
      · intro kvs _ _ _ hf _
        exact absurd hf (by have := osize_pos kvs; omega)
  | succ fuel ih =>
      obtain ⟨ihV, ihA, ihM, ihO⟩ := ih
      refine ⟨?_, ?_, ?_, ?_⟩
      · intro j level ws rest hf hws hrest
        cases j with
        | null => exact parse_dump_null fuel level ws rest hws
        | bool b =>
            cases b
            · exact parse_dump_false fuel level ws rest hws
            · exact parse_dump_true fuel level ws rest hws
        | int n => exact parse_dump_int fuel level n ws rest hws hrest
        | str s => exact parse_dump_str fuel level s ws rest hws
        | arr xs =>
            cases xs with
            | nil => exact parse_dump_arr_nil fuel level ws rest hws
            | cons x t =>
                exact parse_dump_arr_cons fuel level x t ws rest hws hrest ihV ihA hf
        | obj kvs =>
            cases kvs with
            | nil => exact parse_dump_obj_nil fuel level ws rest hws
            | cons kv t =>
                exact parse_dump_obj_cons fuel level kv t ws rest hws hrest ihM ihO hf
      · intro xs lv wsc rest hf hws
        cases xs with
        | nil => exact parse_dump_arrTail_nil fuel lv wsc rest hws
        | cons x t => exact parse_dump_arrTail_cons fuel lv x t wsc rest hws ihV ihA hf
      · intro k v lv ws2 rest hf hws2 hrest
        exact parse_dump_member fuel lv k v ws2 rest hws2 hrest ihV (by omega)
      · intro kvs lv wsc rest hf hws
        cases kvs with
        | nil => exact parse_dump_objTail_nil fuel lv wsc rest hws
        | cons kv t => exact parse_dump_objTail_cons fuel lv kv t wsc rest hws ihM ihO hf

mutual
theorem jsize_le_dumpLen (j : Json) : ∀ level : ℕ, jsize j ≤ (dumpVal level j).length := by
  cases j with
  | null => intro level; simp [dumpVal, jsize, nullChars]
  | bool b => cases b <;> intro level <;> simp [dumpVal, jsize, trueChars, falseChars]
  | int n =>
      intro level
      have hne : intChars n ≠ [] := by
        unfold intChars
        by_cases hn : n < 0
        · simp [hn]
        · simp [hn, natChars_ne_nil]
      have := List.length_pos.mpr hne
      simp only [dumpVal, jsize]
      omega
  | str s => intro level; simp [dumpVal, jsize, strChars]
  | arr xs =>
      cases xs with
      | nil => intro level; simp [dumpVal, jsize, asize]
      | cons x t =>
          intro level
          have h1 := jsize_le_dumpLen x (level + 1)
          have h2 := asize_le_dumpLen t (level + 1)
          simp only [dumpVal, jsize, asize, List.length_cons, List.length_append]
          omega
  | obj kvs =>
      cases kvs with
      | nil => intro level; simp [dumpVal, jsize, osize]
      | cons kv t =>
          intro level
          have h1 := jsize_le_dumpLen kv.2 (level + 1)
          have h2 := osize_le_dumpLen t (level + 1)
          simp only [dumpVal, jsize, osize, List.length_cons, List.length_append]
          omega
theorem asize_le_dumpLen (xs : List Json) :
    ∀ lv : ℕ, asize xs ≤ (dumpArrTail lv xs).length + 1 := by
  cases xs with
  | nil => intro lv; simp [dumpArrTail, asize]
  | cons x t =>
      intro lv
      have h1 := jsize_le_dumpLen x lv
      have h2 := asize_le_dumpLen t lv
      simp only [dumpArrTail, asize, List.length_cons, List.length_append]
      omega
theorem osize_le_dumpLen (kvs : List (String × Json)) :
    ∀ lv : ℕ, osize kvs ≤ (dumpObjTail lv kvs).length + 1 := by
  cases kvs with
  | nil => intro lv; simp [dumpObjTail, osize]
  | cons kv t =>
      intro lv
      have h1 := jsize_le_dumpLen kv.2 lv
      have h2 := osize_le_dumpLen t lv
      simp only [dumpObjTail, osize, List.length_cons, List.length_append]
      omega
end

/-- Parsing inverts rendering, `json.load` of `json.dump`: the document round trip. -/
theorem loads_dumps (j : Json) : loads (dumps j) = some j := by
  have hf : jsize j ≤ (dumpVal 0 j).length + 1 := by
    have := jsize_le_dumpLen j 0
    omega
  have h := (parse_dump_master ((dumpVal 0 j).length + 1)).1 j 0 [] [] hf rfl rfl
  simp only [List.nil_append, List.append_nil] at h
  unfold loads dumps
  have hlen : (String.mk (dumpVal 0 j)).length = (dumpVal 0 j).length := rfl
  have hdata : (String.mk (dumpVal 0 j)).data = dumpVal 0 j := rfl
  rw [hlen, hdata, h]
  rfl

/-- C9: the state/cache file round trip — `write_json` then `read_json` on
the same path returns the structure that was written, for every JSON
document; the read parses the file that the temp-file-then-rename write
left behind and never falls through to the default. -/
theorem write_read_round_trip (fs : FS) (path : String) (data default : Json) :
    read_json (write_json fs path data) path default = data
    ∧ loads (dumps data) = some data := by
  refine ⟨?_, loads_dumps data⟩
  unfold write_json read_json
  simp only [alistGet_set_self, loads_dumps]

end NaverBot
